import Mathlib

/-!
Verification development for the Semantic Movie Discovery System's
embedding & vector-search orchestration layer.

Numbers that are IEEE doubles in the source are modelled as rationals (ℚ);
machine strings are Lean `String`s.  Stateful service operations are
modelled as explicit state-passing functions; fallible operations return
`Except String α`.  Each definition mirrors one function of the source
(file and symbol named in its doc comment).
-/

/-- One catalog record (movie document) with the fields that the delete
path touches: Mongo id, optional GridFS poster reference, and the
`embeddingKeys` map from embedding-source name to vector-point id
(backend/src/models/Movie.ts). -/
structure MovieDoc where
  mid : String
  posterGridFSId : Option String
  embeddingKeys : List (String × String)
  deriving DecidableEq, Repr

/-- Observable state of the system as seen by the delete path: the movie
collection, the set of stored GridFS file ids, and the set of point ids
present in the vector index. -/
structure AppState where
  movies : List MovieDoc
  gridfs : List String
  vectorIndex : List String
  deriving DecidableEq, Repr

/-- Leading and trailing whitespace removal on a character list; the model
of JavaScript's `String.prototype.trim`. -/
def trimChars (cs : List Char) : List Char :=
  ((cs.dropWhile Char.isWhitespace).reverse.dropWhile Char.isWhitespace).reverse

/-- Whether a string is blank: empty or whitespace-only.  This is the
truthiness test `!s.trim()` that the source applies to text inputs. -/
def isBlank (s : String) : Bool :=
  (trimChars s.data).isEmpty

/-- Validity of a Mongo ObjectId string (`Types.ObjectId.isValid` for the
24-hex-character form used throughout the movie service). -/
def isValidObjectId (s : String) : Bool :=
  s.length == 24 && s.data.all (fun c =>
    c.isDigit || ('a' ≤ c && c ≤ 'f') || ('A' ≤ c && c ≤ 'F'))

/-- Deletion of a GridFS file (gridfsService.ts `deleteImageFromGridFS`):
removes the id from the stored-file set. -/
def deleteImageFromGridFS (st : AppState) (g : String) : AppState :=
  { st with gridfs := st.gridfs.filter (fun x => ¬ x = g) }

/-- The `deleteMovie` operation (src/unnamed/part_007, lines 221-240):
rejects invalid ids; looks the movie up, best-effort deletes its GridFS
poster when present, then deletes the movie document itself, returning
whether a document was deleted.  Note that the function never touches the
vector index. -/
def deleteMovie (st : AppState) (id : String) : Bool × AppState :=
  if ¬ isValidObjectId id then (false, st)
  else
    let st1 :=
      match st.movies.find? (fun m => m.mid = id) with
      | some m =>
        match m.posterGridFSId with
        | some g => deleteImageFromGridFS st g
        | none => st
      | none => st
    let found := (st1.movies.find? (fun m => m.mid = id)).isSome
    (found, { st1 with movies := st1.movies.filter (fun m => ¬ m.mid = id) })

/-! ## Structured filter construction (C10) -/

/-- The optional structured search filters
(backend/src/utils/filterBuilder.ts `SearchFilters`). -/
structure SearchFilters where
  genres : Option (List String)
  minRating : Option ℚ
  maxRating : Option ℚ
  minYear : Option ℚ
  maxYear : Option ℚ
  director : Option String
  deriving DecidableEq, Repr

/-- A `{$gte?, $lte?}` range condition inside the built Mongo query. -/
structure RangeCond where
  gte : Option ℚ
  lte : Option ℚ
  deriving DecidableEq, Repr

/-- The Mongo query object produced by `buildFilterQuery`: each key is
present only when the corresponding filter clause was emitted. -/
structure FilterQuery where
  genres : Option (List String)
  director : Option String
  releaseYear : Option RangeCond
  rating : Option RangeCond
  deriving DecidableEq, Repr

/-- JavaScript truthiness of an optional number: `undefined` and `0` are
falsy, every other (rational) value is truthy. -/
def truthyNum : Option ℚ → Bool
  | none => false
  | some v => decide (v ≠ 0)

/-- JavaScript truthiness of an optional string: `undefined` and `""` are
falsy. -/
def truthyStr : Option String → Bool
  | none => false
  | some s => ¬ s.data.isEmpty

/-- The `buildFilterQuery` function (backend/src/utils/filterBuilder.ts,
lines 67-92): emits a genres `$in` clause when the genre list is present
and non-empty, a case-insensitive director regex clause when the director
string is truthy, and `$gte`/`$lte` range clauses for year and rating
guarded by JS truthiness of each bound. -/
def buildFilterQuery (f : SearchFilters) : FilterQuery :=
  { genres :=
      match f.genres with
      | some gs => if gs.length > 0 then some gs else none
      | none => none
    director := if truthyStr f.director then f.director else none
    releaseYear :=
      if truthyNum f.minYear || truthyNum f.maxYear then
        some { gte := if truthyNum f.minYear then f.minYear else none
               lte := if truthyNum f.maxYear then f.maxYear else none }
      else none
    rating :=
      if truthyNum f.minRating || truthyNum f.maxRating then
        some { gte := if truthyNum f.minRating then f.minRating else none
               lte := if truthyNum f.maxRating then f.maxRating else none }
      else none }

/-- The `$gte` bound of the built rating clause, if any. -/
def ratingGte (q : FilterQuery) : Option ℚ := q.rating.bind (·.gte)

/-- The `$lte` bound of the built rating clause, if any. -/
def ratingLte (q : FilterQuery) : Option ℚ := q.rating.bind (·.lte)

/-- The `$gte` bound of the built release-year clause, if any. -/
def yearGte (q : FilterQuery) : Option ℚ := q.releaseYear.bind (·.gte)

/-- The `$lte` bound of the built release-year clause, if any. -/
def yearLte (q : FilterQuery) : Option ℚ := q.releaseYear.bind (·.lte)

/-- Modelled from the spec: MongoDB range-condition semantics (`$gte` and
`$lte` are inclusive comparisons), used to express that an emitted bound
constrains values inclusively.  The evaluation of the built query happens
inside MongoDB, outside this repository. -/
def rangeMatches (rc : RangeCond) (x : ℚ) : Bool :=
  (match rc.gte with | some b => decide (b ≤ x) | none => true) &&
  (match rc.lte with | some b => decide (x ≤ b) | none => true)

/-! ## Neighbor merge / deduplication for semantic search (C2) -/

/-- One step of the `movieScoreMap` construction in `searchMoviesByEmbedding`
(src/unnamed/part_007, lines 139-154): insert a neighbor `(id, score)` into
the insertion-ordered map, keeping the higher score when the id is already
present (strictly greater replaces, so ties keep the earlier occurrence). -/
def upsertBest : List (String × ℚ) → String × ℚ → List (String × ℚ)
  | [], m => [m]
  | p :: ps, m =>
    if p.1 = m.1 then (if m.2 > p.2 then (p.1, m.2) :: ps else p :: ps)
    else p :: upsertBest ps m

/-- The deduplication pass of `searchMoviesByEmbedding`: fold all neighbor
matches into the per-movie best-score map. -/
def dedupeBest (ms : List (String × ℚ)) : List (String × ℚ) :=
  ms.foldl upsertBest []

/-- The comparator `(a, b) => b.score - a.score` of `searchMoviesByEmbedding`
as an ordering relation: `a` may come before `b` when `a`'s score is at
least `b`'s. -/
def scoreGe (a b : String × ℚ) : Prop := b.2 ≤ a.2

instance : DecidableRel scoreGe := fun a b => inferInstanceAs (Decidable (b.2 ≤ a.2))

instance : IsTotal (String × ℚ) scoreGe := ⟨fun a b => le_total b.2 a.2⟩

instance : IsTrans (String × ℚ) scoreGe := ⟨fun _ _ _ hab hbc => le_trans hbc hab⟩

/-- The merge step of `searchMoviesByEmbedding` (src/unnamed/part_007,
lines 139-160) on the neighbor list `(movieId, score)`: deduplicate keeping
the highest score per movie id, sort by descending score (a stable sort, as
`Array.prototype.sort` is), and truncate to `limit`. -/
def mergeNeighbors (ms : List (String × ℚ)) (limit : Nat) : List (String × ℚ) :=
  (List.insertionSort scoreGe (dedupeBest ms)).take limit

/-! ## Embedding generation (C3, C9) -/

/-- The first element of a homogeneous JS array result: either an array of
arrays (token-level embeddings) or an array of numbers.  `Array.isArray`
checks in `generateLocalEmbedding` distinguish exactly these shapes. -/
inductive FirstResult where
  | nested (rows : List (List ℚ))
  | flatNums (v : List ℚ)
  deriving Repr

/-- The shapes of the value returned by the transformers.js feature
extractor that `generateLocalEmbedding` (backend/src/services/
embeddingService.ts, lines 103-216) branches on: an array (empty, first
element an array, or first element not an array), an object with a `data`
field (JS array or Float32Array), an object with a `tolist` method, any
other object, or a non-object. -/
inductive RawResult where
  | arrEmpty
  | arrFirst (f : FirstResult)
  | arrFirstNonArr
  | objDataArr (f : FirstResult)
  | objDataF32 (v : List ℚ)
  | objToListArr (f : FirstResult)
  | objToListNonArr
  | objOther
  | nonObject
  deriving Repr

/-- One iteration of the summation loop in `applyMeanPooling`
(backend/src/services/embeddingService.ts, lines 79-85): add token vector
`t` into the running sums, componentwise over indices `0 ≤ i < dim`.
`getD i 0` stands for the source's `tokenEmbedding[i]`, which is defined
whenever the token vector has length `dim` (the out-of-range NaN behaviour
of shorter rows is outside this rational model). -/
def stepAdd (dim : Nat) (pooled t : List ℚ) : List ℚ :=
  (List.range dim).map (fun i => pooled.getD i 0 + t.getD i 0)

/-- The `applyMeanPooling` function (backend/src/services/
embeddingService.ts, lines 71-92): reject an empty token sequence, then sum
all token vectors componentwise into a zero-initialized accumulator of the
first token's dimension and divide each component by the token count. -/
def applyMeanPooling (tokenEmbeddings : List (List ℚ)) : Except String (List ℚ) :=
  match tokenEmbeddings with
  | [] => .error "Cannot pool empty token embeddings"
  | t0 :: _ =>
    let dim := t0.length
    let sums := tokenEmbeddings.foldl (stepAdd dim) (List.replicate dim 0)
    .ok (sums.map (fun x => x / (tokenEmbeddings.length : ℚ)))

/-- The mean-pool-then-validate tail of `generateLocalEmbedding`
(lines 200-207): pool the token embeddings, then reject an empty pooled
vector as an invalid result. -/
def poolAndCheck (rows : List (List ℚ)) : Except String (List ℚ) := do
  let e ← applyMeanPooling rows
  if e.length = 0 then .error "Invalid embedding result from local model" else pure e

/-- The 1-D branch of `generateLocalEmbedding` (for example lines 129-136):
a flat numeric array whose length matches the configured dimension is
returned as-is (early return, no further validation); otherwise it is
treated as a single token embedding and pooled. -/
def handle1D (dim : Nat) (v : List ℚ) : Except String (List ℚ) :=
  if v.length = dim then pure v else poolAndCheck [v]

/-- Dispatch on the first element of an array-shaped result
(`generateLocalEmbedding` lines 123-137, and the identical `data` /
`tolist` array branches): a non-empty array of arrays is token-level and
pooled; an empty array or an array of numbers goes through the 1-D branch. -/
def handleFirst (dim : Nat) : FirstResult → Except String (List ℚ)
  | .nested (r0 :: rs) => poolAndCheck (r0 :: rs)
  | .nested [] => handle1D dim []
  | .flatNums v => handle1D dim v

/-- The Float32Array branch of `generateLocalEmbedding` (lines 162-176):
return as-is if the flat buffer already has the configured dimension, else
reshape it into `⌊len/dim⌋` rows of `dim` and pool.  (The source's
`Math.floor` is Nat division; the model, like the source, presumes a
positive configured dimension.) -/
def handleF32 (dim : Nat) (v : List ℚ) : Except String (List ℚ) :=
  if v.length = dim then pure v
  else
    let numTokens := v.length / dim
    poolAndCheck ((List.range numTokens).map (fun i => ((v.drop (i * dim)).take dim)))

/-- The `generateLocalEmbedding` function (backend/src/services/
embeddingService.ts, lines 103-216), branching on the shape of the
extractor result; the outer catch rewraps any error message. -/
def generateLocalEmbedding (dim : Nat) (r : RawResult) : Except String (List ℚ) :=
  ((match r with
   | .arrEmpty => .error "Empty result array from embedding pipeline"
   | .arrFirst f => handleFirst dim f
   | .arrFirstNonArr => .error "Unexpected result structure - first element is not an array"
   | .objDataArr f => handleFirst dim f
   | .objDataF32 v => handleF32 dim v
   | .objToListArr f => handleFirst dim f
   | .objToListNonArr => .error "tolist() did not return an array"
   | .objOther => .error "Unexpected result format: object"
   | .nonObject => .error "Unexpected result type"
   : Except String (List ℚ))).mapError
    (fun msg => "Local embedding generation failed: " ++ msg)

/-- The exported `generateEmbedding` function (backend/src/services/
embeddingService.ts, lines 221-232): reject blank/whitespace-only text,
else delegate to the local model (whose raw output shape is the oracle
parameter `r`); errors are re-thrown unchanged. -/
def generateEmbedding (dim : Nat) (text : String) (r : RawResult) :
    Except String (List ℚ) :=
  if isBlank text then .error "Cannot generate embedding for empty text"
  else generateLocalEmbedding dim r

/-! ## Vector-store upsert (C4) -/

/-- The observable state of one vector collection: an insertion-ordered
association of point id to stored vector. -/
abbrev Store := List (String × List ℚ)

/-- Modelled from the spec: the backend's per-point upsert semantics
("overwrites any existing point with the same id", never duplicates) — the
actual write is executed inside the external vector database, not in this
repository.  An existing id has its vector overwritten in place; a fresh
id is appended. -/
def upsertPoint : Store → String × List ℚ → Store
  | [], p => [p]
  | q :: s, p => if q.1 = p.1 then p :: s else q :: upsertPoint s p

/-- Batch upsert of a list of points, point by point in order. -/
def upsertPoints (s : Store) (ps : List (String × List ℚ)) : Store :=
  ps.foldl upsertPoint s

/-- Observable lookup of a point's vector by id. -/
def lookupS (s : Store) (x : String) : Option (List ℚ) :=
  (s.find? (fun q => q.1 = x)).map (fun q => q.2)

/-- Point construction in `upsertMovieEmbeddings` (backend/src/services/
vectorSearchService.ts = recommendationService.ts part, lines 277-291):
each embedding source becomes one point with the deterministic id
`"{movieId}:{source}"`. -/
def buildPoints (movieId : String) (embeddings : List (String × List ℚ)) :
    List (String × List ℚ) :=
  embeddings.map (fun e => (movieId ++ ":" ++ e.1, e.2))

/-- The `upsertMovieEmbeddings` function (lines 267-337): reject an empty
embedding record, else upsert all derived points in one batch and return
the new store plus the source-to-point-id key map. -/
def upsertMovieEmbeddings (s : Store) (movieId : String)
    (embeddings : List (String × List ℚ)) :
    Except String (Store × List (String × String)) :=
  if embeddings.isEmpty then .error "No embeddings provided for upsert"
  else .ok (upsertPoints s (buildPoints movieId embeddings),
            embeddings.map (fun e => (e.1, movieId ++ ":" ++ e.1)))

/-! ## Semantic search across backend families (C5, C6) -/

/-- A search match as returned by `semanticSearch`: point id, similarity
score, and payload. -/
structure VectorMatch where
  vid : String
  score : ℚ
  payload : List (String × String)
  deriving DecidableEq, Repr

/-- A raw point of a Qdrant search response; `score` and `payload` may be
absent (the source applies `?? 0` and `?? {}`). -/
structure RawPoint where
  pid : String
  rscore : Option ℚ
  rpayload : Option (List (String × String))
  deriving Repr

/-- The Qdrant interactions that `semanticSearch` performs, as an oracle:
`getCollection` yields the collection's point count or fails when the
collection does not exist; `searchResult` is the outcome of the search
call. -/
structure QdrantBackend where
  getCollection : Except String Nat
  searchResult : Except String (List RawPoint)

/-- The Qdrant branch of `semanticSearch` (backend/src/services/
vectorSearchService.ts, lines 345-382): a missing collection, a zero point
count, or any search error all yield the empty match list; otherwise the
response points are normalized with default score 0 and empty payload. -/
def semanticSearchQdrant (b : QdrantBackend) : List VectorMatch :=
  match b.getCollection with
  | .error _ => []
  | .ok n =>
    if n = 0 then []
    else
      match b.searchResult with
      | .error _ => []
      | .ok pts => pts.map (fun p => ⟨p.pid, p.rscore.getD 0, p.rpayload.getD []⟩)

/-- A raw match of a Pinecone query response. -/
structure PineconeMatch where
  pid : String
  rscore : Option ℚ
  rmetadata : Option (List (String × String))
  deriving Repr

/-- The Pinecone branch of `semanticSearch` (lines 384-397): the query
result is mapped directly; `matches` may be absent (`|| []`); there is no
try/catch, so a backend error propagates to the caller. -/
def semanticSearchPinecone
    (queryResult : Except String (Option (List PineconeMatch))) :
    Except String (List VectorMatch) :=
  match queryResult with
  | .error e => .error e
  | .ok ms =>
    .ok ((ms.getD []).map (fun m => ⟨m.pid, m.rscore.getD 0, m.rmetadata.getD []⟩))

/-- The body of a Chroma query response as `semanticSearch` consumes it:
`ids0 = results.ids[0]` (absent when `results.ids` or `results.ids[0]` is
falsy), `distances0 = results.distances?.[0] ?? []` and
`metadatas0 = results.metadatas?.[0] ?? []`. -/
structure ChromaResp where
  ids0 : Option (List String)
  distances0 : List ℚ
  metadatas0 : List (List (String × String))
  deriving Repr

/-- The Chroma branch of `semanticSearch` (lines 399-426): on a successful
response, each returned id yields a match whose score is the distance
converted by `1 - (distances[idx] || 0)`; there is no try/catch, so a
transport error (e.g. a request against a collection that does not exist)
propagates to the caller. -/
def semanticSearchChroma (resp : Except String ChromaResp) :
    Except String (List VectorMatch) :=
  match resp with
  | .error e => .error e
  | .ok r =>
    match r.ids0 with
    | none => .ok []
    | some ids =>
      .ok (ids.enum.map (fun p =>
        ⟨p.2, 1 - (r.distances0.getD p.1 0), r.metadatas0.getD p.1 []⟩))

/-- The configured backend family (`getVectorClient` plus the
`isQdrant` / `isPinecone` / `isChroma` dispatch of `semanticSearch`). -/
inductive BackendFamily where
  | qdrant
  | pinecone
  | chroma
  deriving DecidableEq, Repr

/-- The oracle responses of all three backend families for one query. -/
structure VectorBackends where
  qdrantB : QdrantBackend
  pineconeB : Except String (Option (List PineconeMatch))
  chromaB : Except String ChromaResp

/-- The `semanticSearch` function (backend/src/services/
vectorSearchService.ts, lines 339-429), dispatching on the configured
backend family. -/
def semanticSearch (fam : BackendFamily) (b : VectorBackends) :
    Except String (List VectorMatch) :=
  match fam with
  | .qdrant => .ok (semanticSearchQdrant b.qdrantB)
  | .pinecone => semanticSearchPinecone b.pineconeB
  | .chroma => semanticSearchChroma b.chromaB

/-! ## Update-triggered re-embedding (C7) -/

/-- The movie state relevant to re-embedding: required title, optional
plot, genre list, optional rating. -/
structure MovieState where
  title : String
  plot : Option String
  genres : List String
  rating : Option ℚ
  deriving DecidableEq, Repr

/-- A partial update payload (`Partial<CreateMovieDTO>`): absent fields are
left untouched by the `$set` update. -/
structure UpdatePayload where
  title : Option String
  plot : Option String
  genres : Option (List String)
  rating : Option ℚ
  deriving DecidableEq, Repr

/-- The `$set` semantics of `updateMovie` (src/unnamed/part_007,
lines 191-195): each field present in the payload replaces the stored
value, absent fields are unchanged. -/
def applyUpdate (m : MovieState) (p : UpdatePayload) : MovieState :=
  { title := p.title.getD m.title
    plot := p.plot.orElse (fun _ => m.plot)
    genres := p.genres.getD m.genres
    rating := p.rating.orElse (fun _ => m.rating) }

/-- The argument object handed to `regenerateMovieEmbeddings`. -/
structure EmbedInput where
  title : Option String
  plot : Option String
  genres : Option (List String)
  deriving DecidableEq, Repr

/-- The `embeddingPayload` construction of `updateMovie` (src/unnamed/
part_007, lines 202-208): the updated movie's title/plot/genres, with any
field explicitly present in the payload spread over them. -/
def embeddingPayload (updated : MovieState) (p : UpdatePayload) : EmbedInput :=
  { title := some (p.title.getD updated.title)
    plot := p.plot.orElse (fun _ => updated.plot)
    genres := some (p.genres.getD updated.genres) }

/-- The `hasEmbeddingFields` guard of `regenerateMovieEmbeddings`
(src/unnamed/part_006, lines 287-290): a present non-blank title, a present
non-blank plot, or a present non-empty genre list. -/
def hasEmbeddingFields (e : EmbedInput) : Bool :=
  (match e.title with | some t => ¬ isBlank t | none => false) ||
  (match e.plot with | some pl => ¬ isBlank pl | none => false) ||
  (match e.genres with | some gs => gs.length > 0 | none => false)

/-- Whether a `regenerateMovieEmbeddings` call regenerates and upserts
embeddings or returns without doing either. -/
inductive RegenAction where
  | skip
  | regenerate
  deriving DecidableEq, Repr

/-- The skip/regenerate decision of `regenerateMovieEmbeddings`
(src/unnamed/part_006, lines 287-304): skip exactly when no embedding
field passes the guard. -/
def regenerateDecision (e : EmbedInput) : RegenAction :=
  if hasEmbeddingFields e then .regenerate else .skip

/-- The re-embedding behaviour triggered by `updateMovie` on a successful
update: build the embedding payload from the post-update state and the raw
payload, then take the `regenerateMovieEmbeddings` decision on it. -/
def updateMovieRegen (m : MovieState) (p : UpdatePayload) : RegenAction :=
  regenerateDecision (embeddingPayload (applyUpdate m p) p)

/-! ## Catalog deduplication (C8) -/

/-- A catalog record as seen by `dedupeMovies`: id, title, optional release
year, rating, poster asset reference and content type, creation time in
epoch milliseconds. -/
structure MovieRec where
  mid : String
  title : String
  releaseYear : Option Nat
  rating : Option ℚ
  posterGridFSId : Option String
  posterContentType : Option String
  createdAt : Option Nat
  deriving DecidableEq, Repr

/-- Collapse runs of consecutive spaces into a single space (the effect of
`replace(/\s+/g, ' ')` once every whitespace character has been mapped to
a plain space). -/
def collapseSpaces : List Char → List Char
  | [] => []
  | c :: cs =>
    let rest := collapseSpaces cs
    if c = ' ' then
      match rest with
      | ' ' :: _ => rest
      | _ => c :: rest
    else c :: rest

/-- The `normalizeTitle` helper (src/unnamed/part_007, line 31):
`title.trim().replace(/\s+/g, ' ').toLowerCase()` — trim, collapse
whitespace runs to single spaces, lowercase (ASCII case mapping; the
catalog's titles are ASCII). -/
def normalizeTitle (title : String) : String :=
  String.mk
    ((collapseSpaces ((trimChars title.data).map
        (fun c => if c.isWhitespace then ' ' else c))).map Char.toLower)

/-- The grouping key of `dedupeMovies` (src/unnamed/part_007, line 409):
`` `${normalizeTitle(movie.title)}::${movie.releaseYear || ''}` `` — a
missing or zero release year (both falsy) contributes the empty string. -/
def dedupeKey (m : MovieRec) : String :=
  normalizeTitle m.title ++ "::" ++
    (match m.releaseYear with
     | some y => if y = 0 then "" else toString y
     | none => "")

/-- Insert one movie into the insertion-ordered group map under key `k`
(the `groups` Map of `dedupeMovies`, lines 406-412). -/
def groupInsert (gs : List (String × List MovieRec)) (k : String) (m : MovieRec) :
    List (String × List MovieRec) :=
  match gs with
  | [] => [(k, [m])]
  | (k', g) :: rest =>
    if k' = k then (k', g ++ [m]) :: rest else (k', g) :: groupInsert rest k m

/-- Group the whole catalog by dedupe key, preserving first-occurrence
order of keys and insertion order within each group. -/
def groupMovies (ms : List MovieRec) : List (String × List MovieRec) :=
  ms.foldl (fun gs m => groupInsert gs (dedupeKey m) m) []

/-- The survivor comparator of `dedupeMovies` (lines 424-434) as a strict
"sorts earlier" test: higher rating (missing treated as 0), then presence
of a poster asset, then newer creation time. -/
def survGt (a b : MovieRec) : Bool :=
  let ra := a.rating.getD 0
  let rb := b.rating.getD 0
  let pa : Nat := if a.posterGridFSId.isSome then 1 else 0
  let pb : Nat := if b.posterGridFSId.isSome then 1 else 0
  if ¬ ra = rb then decide (rb < ra)
  else if ¬ pa = pb then decide (pb < pa)
  else decide (b.createdAt.getD 0 < a.createdAt.getD 0)

/-- The survivor selection `[...group].sort(cmp)[0]` of `dedupeMovies`:
the first element of the stable descending sort, i.e. the earliest element
that no other element strictly beats. -/
def chooseSurvivor : List MovieRec → MovieRec
  | [] => ⟨"", "", none, none, none, none, none⟩
  | m0 :: rest => rest.foldl (fun acc m => if survGt m acc then m else acc) m0

/-- The poster migration of `dedupeMovies` (lines 441-447): when the
survivor lacks a poster, every duplicate that has one writes its poster
reference onto the survivor in turn, so the last such duplicate in group
order wins. -/
def migratePoster (surv : MovieRec) (g : List MovieRec) : MovieRec :=
  if surv.posterGridFSId.isSome then surv
  else
    match (g.filter (fun d => ¬ d.mid = surv.mid)).reverse.find?
        (fun d => d.posterGridFSId.isSome) with
    | some d => { surv with posterGridFSId := d.posterGridFSId,
                            posterContentType := d.posterContentType }
    | none => surv

/-- The records of one group that remain after `dedupeMovies` processes it:
groups of size at most 1 are untouched; larger groups keep only the
(possibly poster-migrated) survivor. -/
def survivingGroup (g : List MovieRec) : List MovieRec :=
  if g.length ≤ 1 then g else [migratePoster (chooseSurvivor g) g]

/-- The number of deletions `dedupeMovies` performs in one group: zero for
groups of size at most 1, else one per member whose id differs from the
survivor's. -/
def groupRemovedCount (g : List MovieRec) : Nat :=
  if g.length ≤ 1 then 0
  else (g.filter (fun d => ¬ d.mid = (chooseSurvivor g).mid)).length

/-- The `kept` contribution of one group (lines 418-421 and 453). -/
def groupKeptCount (g : List MovieRec) : Nat :=
  if g.length ≤ 1 then g.length else 1

/-- The outcome of one `dedupeMovies` run: the returned counters plus the
catalog state left in the record store. -/
structure DedupeResult where
  totalGroups : Nat
  removed : Nat
  kept : Nat
  catalog : List MovieRec
  deriving Repr

/-- The `dedupeMovies` routine (src/unnamed/part_007, lines 404-457):
group by dedupe key, count and delete non-survivors per group, and report
`{totalGroups, removed, kept}`.  The surviving catalog is listed in group
order (record-store contents are a set; order is immaterial). -/
def dedupeMovies (ms : List MovieRec) : DedupeResult :=
  let gs := groupMovies ms
  { totalGroups := gs.length
    removed := (gs.map (fun kg => groupRemovedCount kg.2)).sum
    kept := (gs.map (fun kg => groupKeptCount kg.2)).sum
    catalog := (gs.map (fun kg => survivingGroup kg.2)).flatten }

/-! ## Theorems -/

/-- Helper: `deleteMovie` never modifies the vector index, whatever the
state and id. -/
theorem deleteMovie_vectorIndex (st : AppState) (id : String) :
    (deleteMovie st id).2.vectorIndex = st.vectorIndex := by
  unfold deleteMovie
  split
  · rfl
  · dsimp only
    split
    · split <;> rfl
    · rfl

/-- C1: evaluation of the delete path at a concrete failing state — a
movie whose `embeddingKeys` references the vector point
`"507f1f77bcf86cd799439011:plot"`, which is present in the vector index.
The delete succeeds and removes the record, yet the referenced vector
point is still in the index afterwards (the vector index is untouched by
`deleteMovie`), contradicting the requirement that all referenced
VectorPoints be deleted before or as part of deleting the record. -/
theorem C1_delete_leaves_orphan_vector_point :
    (∀ (st : AppState) (id : String),
        (deleteMovie st id).2.vectorIndex = st.vectorIndex) ∧
    (deleteMovie
        ⟨[⟨"507f1f77bcf86cd799439011", none,
            [("plot", "507f1f77bcf86cd799439011:plot")]⟩], [],
          ["507f1f77bcf86cd799439011:plot"]⟩
        "507f1f77bcf86cd799439011").1 = true ∧
    (deleteMovie
        ⟨[⟨"507f1f77bcf86cd799439011", none,
            [("plot", "507f1f77bcf86cd799439011:plot")]⟩], [],
          ["507f1f77bcf86cd799439011:plot"]⟩
        "507f1f77bcf86cd799439011").2.movies = [] ∧
    "507f1f77bcf86cd799439011:plot" ∈
      (deleteMovie
        ⟨[⟨"507f1f77bcf86cd799439011", none,
            [("plot", "507f1f77bcf86cd799439011:plot")]⟩], [],
          ["507f1f77bcf86cd799439011:plot"]⟩
        "507f1f77bcf86cd799439011").2.vectorIndex :=
  ⟨deleteMovie_vectorIndex, by decide, by decide, by decide⟩

/-- C7 counterexample: an update payload that touches only the rating — no
embeddable source (title, plot, genres) is among the updated fields — yet
the triggered re-embedding is not a no-op: because `updateMovie` passes the
full post-update movie state, the guard sees the unchanged non-blank title
and regenerates. -/
theorem C7_counterexample_rating_only_update_regenerates :
    (⟨none, none, none, some 8⟩ : UpdatePayload).title = none ∧
    (⟨none, none, none, some 8⟩ : UpdatePayload).plot = none ∧
    (⟨none, none, none, some 8⟩ : UpdatePayload).genres = none ∧
    updateMovieRegen ⟨"Inception", none, [], some 7⟩ ⟨none, none, none, some 8⟩
      = .regenerate := by
  refine ⟨rfl, rfl, rfl, ?_⟩
  decide

/-- C7 (amended): the re-embedding triggered by an update is skipped iff
the merged post-update state has a blank title, no non-blank plot and an
empty genre list — i.e. the guard tests presence of embeddable content on
the updated record, not whether any embeddable source changed; any update
to a movie with non-blank embeddable content regenerates. -/
theorem C7_regen_skips_iff_no_embeddable_content
    (m : MovieState) (p : UpdatePayload) :
    updateMovieRegen m p = .skip ↔
      (isBlank (p.title.getD m.title) = true ∧
       ((p.plot.orElse (fun _ => m.plot)).all (fun pl => isBlank pl)) = true ∧
       p.genres.getD m.genres = []) := by
  unfold updateMovieRegen regenerateDecision hasEmbeddingFields embeddingPayload applyUpdate
  cases hp : p.plot <;> cases hg : p.genres <;> cases ht : p.title <;>
    cases hmp : m.plot <;>
    simp [Option.orElse, Option.all, List.length_pos, List.isEmpty_iff,
      imp_false, not_not] <;>
    constructor <;> intro h <;> simp_all

/-- C10: a zero rating or year bound is indistinguishable from an absent
one — the built query is identical to the query built with that filter
absent (in particular the corresponding `$gte`/`$lte` condition is
omitted) — while a non-zero bound is emitted verbatim as an inclusive
range condition that the boundary value itself satisfies. -/
theorem C10_zero_bounds_impose_no_constraint (f : SearchFilters) (v : ℚ) :
    (f.minRating = some 0 →
      buildFilterQuery f = buildFilterQuery { f with minRating := none }) ∧
    (f.maxRating = some 0 →
      buildFilterQuery f = buildFilterQuery { f with maxRating := none }) ∧
    (f.minYear = some 0 →
      buildFilterQuery f = buildFilterQuery { f with minYear := none }) ∧
    (f.maxYear = some 0 →
      buildFilterQuery f = buildFilterQuery { f with maxYear := none }) ∧
    (truthyNum f.minRating = false → truthyNum f.maxRating = false →
      (buildFilterQuery f).rating = none) ∧
    (truthyNum f.minYear = false → truthyNum f.maxYear = false →
      (buildFilterQuery f).releaseYear = none) ∧
    (f.minRating = some v → v ≠ 0 →
      ratingGte (buildFilterQuery f) = some v ∧
      ∀ rc, (buildFilterQuery f).rating = some rc → rc.lte = none →
        rangeMatches rc v = true) ∧
    (f.maxRating = some v → v ≠ 0 →
      ratingLte (buildFilterQuery f) = some v) ∧
    (f.minYear = some v → v ≠ 0 → yearGte (buildFilterQuery f) = some v) ∧
    (f.maxYear = some v → v ≠ 0 → yearLte (buildFilterQuery f) = some v) := by
  refine ⟨?_, ?_, ?_, ?_, ?_, ?_, ?_, ?_, ?_, ?_⟩
  · intro h; simp [buildFilterQuery, truthyNum, h]
  · intro h; simp [buildFilterQuery, truthyNum, h]
  · intro h; simp [buildFilterQuery, truthyNum, h]
  · intro h; simp [buildFilterQuery, truthyNum, h]
  · intro h1 h2; simp [buildFilterQuery, h1, h2]
  · intro h1 h2; simp [buildFilterQuery, h1, h2]
  · intro h hv
    constructor
    · simp [buildFilterQuery, ratingGte, truthyNum, h, hv]
    · intro rc hrc hlte
      have : rc.gte = some v := by
        have := hrc ▸ (by simp [buildFilterQuery, truthyNum, h, hv] :
          (buildFilterQuery f).rating.bind (fun c => c.gte) = some v)
        simpa [Option.bind] using this
      simp [rangeMatches, this, hlte]
  · intro h hv; simp [buildFilterQuery, ratingLte, truthyNum, h, hv]
  · intro h hv; simp [buildFilterQuery, yearGte, truthyNum, h, hv]
  · intro h hv; simp [buildFilterQuery, yearLte, truthyNum, h, hv]

/-- C10 witness: the theorem applied to a concrete filter set with
`minRating = 0` and `maxRating = 3`. -/
theorem C10_witness :
    buildFilterQuery ⟨none, some 0, some 3, none, none, none⟩
      = buildFilterQuery
          { (⟨none, some 0, some 3, none, none, none⟩ : SearchFilters) with
            minRating := none } ∧
    ratingLte (buildFilterQuery ⟨none, some 0, some 3, none, none, none⟩)
      = some 3 :=
  ⟨(C10_zero_bounds_impose_no_constraint
      ⟨none, some 0, some 3, none, none, none⟩ 3).1 rfl,
   (C10_zero_bounds_impose_no_constraint
      ⟨none, some 0, some 3, none, none, none⟩ 3).2.2.2.2.2.2.2.1 rfl
      three_ne_zero⟩

/-- C5 counterexample: for the Chroma backend family, a backend error on
the query request — which is how a request against a collection that does
not exist surfaces, there being no existence pre-check and no try/catch in
this branch — propagates to the caller instead of yielding the empty match
list that the claim requires for every backend family. -/
theorem C5_counterexample_chroma_error_propagates :
    semanticSearch .chroma
      ⟨⟨.ok 1, .ok []⟩, .ok none, .error "Collection not found"⟩
      = .error "Collection not found" ∧
    semanticSearch .chroma
      ⟨⟨.ok 1, .ok []⟩, .ok none, .error "Collection not found"⟩
      ≠ .ok [] :=
  ⟨rfl, fun h => Except.noConfusion h⟩

/-- C5 (amended): the cold-start guarantee holds for the Qdrant family —
a missing collection, an empty collection, and even an arbitrary search
error all yield the empty match list — while for the Pinecone and Chroma
families only a successful response with no matches yields the empty list;
those two branches have no error handling, so backend errors (including a
missing collection reported as an error) propagate. -/
theorem C5_empty_collection_queries_return_empty
    (b : VectorBackends) (e : String) (r : ChromaResp) :
    (b.qdrantB.getCollection = .error e → semanticSearch .qdrant b = .ok []) ∧
    (b.qdrantB.getCollection = .ok 0 → semanticSearch .qdrant b = .ok []) ∧
    (b.qdrantB.searchResult = .error e → semanticSearch .qdrant b = .ok []) ∧
    (b.pineconeB = .ok none → semanticSearch .pinecone b = .ok []) ∧
    (b.pineconeB = .ok (some []) → semanticSearch .pinecone b = .ok []) ∧
    (b.chromaB = .ok r → r.ids0 = none → semanticSearch .chroma b = .ok []) ∧
    (b.chromaB = .ok r → r.ids0 = some [] → semanticSearch .chroma b = .ok []) := by
  refine ⟨?_, ?_, ?_, ?_, ?_, ?_, ?_⟩
  · intro h; simp [semanticSearch, semanticSearchQdrant, h]
  · intro h; simp [semanticSearch, semanticSearchQdrant, h]
  · intro h
    simp only [semanticSearch, semanticSearchQdrant, h]
    rcases hg : b.qdrantB.getCollection with e' | n'
    · rfl
    · by_cases hn : n' = 0 <;> simp [hn]
  · intro h; simp [semanticSearch, semanticSearchPinecone, h]
  · intro h; simp [semanticSearch, semanticSearchPinecone, h]
  · intro h hi; simp [semanticSearch, semanticSearchChroma, h, hi]
  · intro h hi; simp [semanticSearch, semanticSearchChroma, h, hi, List.enum]

/-- C5 witness: the theorem applied to one concrete backend state in which
the Qdrant collection is missing, the Pinecone query reports no matches
field, and the Chroma response carries no ids. -/
theorem C5_witness :
    semanticSearch .qdrant
      ⟨⟨.error "no collection", .error "no collection"⟩, .ok none,
        .ok ⟨none, [], []⟩⟩ = .ok [] ∧
    semanticSearch .pinecone
      ⟨⟨.error "no collection", .error "no collection"⟩, .ok none,
        .ok ⟨none, [], []⟩⟩ = .ok [] ∧
    semanticSearch .chroma
      ⟨⟨.error "no collection", .error "no collection"⟩, .ok none,
        .ok ⟨none, [], []⟩⟩ = .ok [] :=
  ⟨(C5_empty_collection_queries_return_empty _ "no collection" ⟨none, [], []⟩).1
      rfl,
   (C5_empty_collection_queries_return_empty _ "no collection"
      ⟨none, [], []⟩).2.2.2.1 rfl,
   (C5_empty_collection_queries_return_empty _ "no collection"
      ⟨none, [], []⟩).2.2.2.2.2.1 rfl rfl⟩

/-- C6 counterexample: a Chroma distance of 2 (the far end of the cosine
distance range `[0,2]` named by the claim) is converted by the adapter via
`score = 1 - d` to the score `-1`, which does not lie in `[0,1]`. -/
theorem C6_counterexample_distance_two_gives_negative_score :
    semanticSearchChroma (.ok ⟨some ["p1"], [2], []⟩)
      = .ok [⟨"p1", -1, []⟩] ∧ ((-1 : ℚ) < 0) := by
  constructor
  · norm_num [semanticSearchChroma, List.enum]
  · norm_num

/-- C6 (amended): the Chroma branch of `semanticSearch` does convert each
native distance `d` to a score via `score = 1 - d` (with a missing
distance defaulting to 0), and the converted scores all lie in `[0,1]`
precisely when every reported distance lies in `[0,1]`; for distances in
`(1,2]` the unclamped score is negative (shown by the counterexample),
and the Qdrant and Pinecone branches pass native scores through without
any normalization. -/
theorem C6_chroma_converts_distance_to_score (r : ChromaResp)
    (ids : List String) (l : List VectorMatch)
    (h : r.ids0 = some ids) (hl : semanticSearchChroma (.ok r) = .ok l) :
    l.map (fun m => m.score)
      = (List.range ids.length).map (fun i => 1 - r.distances0.getD i 0) ∧
    (r.distances0.all (fun d => decide (0 ≤ d) && decide (d ≤ 1)) = true →
      ids.length ≤ r.distances0.length →
      l.all (fun m => decide (0 ≤ m.score) && decide (m.score ≤ 1)) = true) := by
  have hl' : l = ids.enum.map (fun p =>
      (⟨p.2, 1 - (r.distances0.getD p.1 0), r.metadatas0.getD p.1 []⟩ :
        VectorMatch)) := by
    rw [semanticSearchChroma, h] at hl
    exact (Except.ok.injEq _ _).mp hl.symm
  subst hl'
  have hmap : (ids.enum.map (fun p =>
      (⟨p.2, 1 - (r.distances0.getD p.1 0), r.metadatas0.getD p.1 []⟩ :
        VectorMatch))).map (fun m => m.score)
      = (List.range ids.length).map (fun i => 1 - r.distances0.getD i 0) := by
    rw [List.map_map]
    have h1 : ((fun (m : VectorMatch) => m.score) ∘ fun p : Nat × String =>
        (⟨p.2, 1 - (r.distances0.getD p.1 0), r.metadatas0.getD p.1 []⟩ :
          VectorMatch))
        = (fun i => 1 - r.distances0.getD i 0) ∘ Prod.fst := rfl
    rw [h1, ← List.map_map, List.enum_map_fst]
  refine ⟨hmap, ?_⟩
  intro hd hlen
  have hall : ∀ s ∈ (List.range ids.length).map
      (fun i => 1 - r.distances0.getD i 0),
      (decide (0 ≤ s) && decide (s ≤ 1)) = true := by
    intro s hs
    rw [List.mem_map] at hs
    obtain ⟨i, hi, hsi⟩ := hs
    rw [List.mem_range] at hi
    have hid : i < r.distances0.length := lt_of_lt_of_le hi hlen
    have hmem : r.distances0.getD i 0 ∈ r.distances0 := by
      rw [List.getD_eq_getElem r.distances0 0 hid]
      exact List.getElem_mem hid
    have := (List.all_eq_true.mp hd) _ hmem
    simp only [Bool.and_eq_true, decide_eq_true_eq] at this ⊢
    constructor
    · linarith [this.2, hsi.symm ▸ (by linarith [this.2] : (0:ℚ) ≤ 1 - r.distances0.getD i 0)]
    · rw [← hsi]; linarith [this.1]
  rw [List.all_eq_true]
  intro m hm
  have : m.score ∈ (List.range ids.length).map
      (fun i => 1 - r.distances0.getD i 0) := hmap ▸ List.mem_map_of_mem _ hm
  exact hall _ this

/-- C6 witness: the conversion theorem applied to a concrete Chroma
response with one id and distance 1, whose converted score is 0. -/
theorem C6_witness :
    ([⟨"p", 0, []⟩] : List VectorMatch).map (fun m => m.score)
      = (List.range 1).map (fun i => 1 - ([(1:ℚ)].getD i 0)) ∧
    ([⟨"p", 0, []⟩] : List VectorMatch).all
      (fun m => decide (0 ≤ m.score) && decide (m.score ≤ 1)) = true := by
  have h := C6_chroma_converts_distance_to_score ⟨some ["p"], [1], []⟩ ["p"]
      [⟨"p", 0, []⟩] rfl (by norm_num [semanticSearchChroma, List.enum])
  exact ⟨h.1, h.2 (by norm_num) (by norm_num)⟩

/-- Helper: `Except.mapError` returns `ok` exactly when its argument does. -/
theorem mapError_eq_ok {ε ε' α : Type} {f : ε → ε'} {x : Except ε α} {v : α} :
    Except.mapError f x = .ok v ↔ x = .ok v := by
  cases x <;> simp [Except.mapError]

/-- Helper: a successful `poolAndCheck` never returns the empty vector —
the explicit emptiness check rejects it. -/
theorem poolAndCheck_ok_ne_nil {rows : List (List ℚ)} {v : List ℚ}
    (h : poolAndCheck rows = .ok v) : v ≠ [] := by
  unfold poolAndCheck at h
  rcases he : applyMeanPooling rows with e | w
  · rw [he] at h
    simp [Bind.bind, Except.bind] at h
  · rw [he] at h
    simp only [Bind.bind, Except.bind] at h
    by_cases hw : w.length = 0
    · simp [hw] at h
    · simp only [hw, if_false, pure, Except.pure, Except.ok.injEq] at h
      subst h
      exact fun hnil => hw (by simp [hnil])

/-- Helper: a successful `handle1D` with a positive configured dimension
never returns the empty vector. -/
theorem handle1D_ok_ne_nil {dim : Nat} {u v : List ℚ} (hdim : 0 < dim)
    (h : handle1D dim u = .ok v) : v ≠ [] := by
  unfold handle1D at h
  by_cases hu : u.length = dim
  · simp only [hu, if_true, pure, Except.pure, Except.ok.injEq] at h
    subst h
    intro hnil
    rw [hnil] at hu
    simp at hu
    omega
  · simp only [hu, if_false] at h
    exact poolAndCheck_ok_ne_nil h

/-- Helper: a successful `handleFirst` with a positive configured
dimension never returns the empty vector. -/
theorem handleFirst_ok_ne_nil {dim : Nat} {f : FirstResult} {v : List ℚ}
    (hdim : 0 < dim) (h : handleFirst dim f = .ok v) : v ≠ [] := by
  cases f with
  | nested rows =>
    cases rows with
    | nil => exact handle1D_ok_ne_nil hdim h
    | cons r0 rs => exact poolAndCheck_ok_ne_nil h
  | flatNums u => exact handle1D_ok_ne_nil hdim h

/-- Helper: a successful `handleF32` with a positive configured dimension
never returns the empty vector. -/
theorem handleF32_ok_ne_nil {dim : Nat} {u v : List ℚ} (hdim : 0 < dim)
    (h : handleF32 dim u = .ok v) : v ≠ [] := by
  unfold handleF32 at h
  by_cases hu : u.length = dim
  · simp only [hu, if_true, pure, Except.pure, Except.ok.injEq] at h
    subst h
    intro hnil
    rw [hnil] at hu
    simp at hu
    omega
  · simp only [hu, if_false] at h
    exact poolAndCheck_ok_ne_nil h

/-- C3 counterexample: with configured dimension 384 and a non-blank
input, a (homogeneous-array) model output of length 2 is returned as a
length-2 vector with no error raised — `generateEmbedding` silently
returns a vector whose length differs from the configured dimension. -/
theorem C3_counterexample_wrong_dimension_returned_silently :
    generateEmbedding 384 "hi" (.arrFirst (.flatNums [1/2, 1/2]))
      = .ok [1/2, 1/2] ∧ ([(1:ℚ)/2, 1/2].length ≠ 384) := by
  constructor
  · have hb : isBlank "hi" = false := by decide
    norm_num [generateEmbedding, hb, generateLocalEmbedding, handleFirst,
      handle1D, poolAndCheck, applyMeanPooling, stepAdd, List.range_succ,
      Except.mapError, List.foldl_cons, List.foldl_nil, List.replicate,
      List.getD, bind, Except.bind, pure, Except.pure]
  · decide

/-- C3 (amended): for every positive configured dimension and non-blank
text, `generateEmbedding` either raises an error or returns a non-empty
vector — it never silently returns a zero-length vector; but the returned
vector's length is only guaranteed to equal the configured dimension on
the early-return branches, not after pooling (counterexample above). -/
theorem C3_generate_embedding_never_silently_empty
    (dim : Nat) (text : String) (r : RawResult) (v : List ℚ)
    (hdim : 0 < dim) (h : generateEmbedding dim text r = .ok v) : v ≠ [] := by
  unfold generateEmbedding at h
  split at h
  · exact absurd h (by simp)
  · unfold generateLocalEmbedding at h
    rw [mapError_eq_ok] at h
    cases r with
    | arrEmpty => exact absurd h (by simp)
    | arrFirst f => exact handleFirst_ok_ne_nil hdim h
    | arrFirstNonArr => exact absurd h (by simp)
    | objDataArr f => exact handleFirst_ok_ne_nil hdim h
    | objDataF32 u => exact handleF32_ok_ne_nil hdim h
    | objToListArr f => exact handleFirst_ok_ne_nil hdim h
    | objToListNonArr => exact absurd h (by simp)
    | objOther => exact absurd h (by simp)
    | nonObject => exact absurd h (by simp)

/-- C3 witness: the theorem applied at dimension 2, the non-blank text
`"hi"` and a flat model output of matching length. -/
theorem C3_witness : ([(1:ℚ)/2, 1/2] : List ℚ) ≠ [] :=
  C3_generate_embedding_never_silently_empty 2 "hi"
    (.arrFirst (.flatNums [1/2, 1/2])) [1/2, 1/2] (by decide) rfl

/-- Helper: reading every position of a list back via `getD` recovers the
list. -/
theorem map_range_getD (l : List ℚ) :
    (List.range l.length).map (fun i => l.getD i 0) = l := by
  refine List.ext_getElem (by simp) ?_
  intro i h1 h2
  simp [List.getD, List.getElem?_eq_getElem h2]

/-- Helper: every position of a zero-filled accumulator reads 0. -/
theorem getD_replicate_zero (n i : Nat) :
    (List.replicate n (0 : ℚ)).getD i 0 = 0 := by
  induction n generalizing i with
  | zero => simp [List.getD]
  | succ n ih =>
    cases i with
    | zero => simp [List.replicate]
    | succ i => simp [List.replicate]

/-- Helper: one summation step keeps the accumulator at the configured
dimension. -/
theorem stepAdd_length (dim : Nat) (pooled t : List ℚ) :
    (stepAdd dim pooled t).length = dim := by
  simp [stepAdd]

/-- Helper: the value of one summation step at an in-range position. -/
theorem stepAdd_getD {dim i : Nat} (pooled t : List ℚ) (h : i < dim) :
    (stepAdd dim pooled t).getD i 0 = pooled.getD i 0 + t.getD i 0 := by
  rw [stepAdd, List.getD_eq_getElem _ _ (by simpa using h)]
  simp

/-- Helper: folding the summation step over all token vectors accumulates
the columnwise sums. -/
theorem foldl_stepAdd_getD (rows : List (List ℚ)) (dim : Nat) :
    ∀ (acc : List ℚ) (i : Nat), i < dim →
      (rows.foldl (stepAdd dim) acc).getD i 0
        = acc.getD i 0 + (rows.map (fun r => r.getD i 0)).sum := by
  induction rows with
  | nil => intro acc i _; simp
  | cons t rows ih =>
    intro acc i hi
    simp only [List.foldl_cons, List.map_cons, List.sum_cons]
    rw [ih (stepAdd dim acc t) i hi, stepAdd_getD acc t hi]
    ring

/-- Helper: the fold of summation steps has the configured dimension
whenever it runs at least once or starts from an accumulator of that
dimension. -/
theorem foldl_stepAdd_length (rows : List (List ℚ)) (dim : Nat) :
    ∀ acc : List ℚ, acc.length = dim →
      (rows.foldl (stepAdd dim) acc).length = dim := by
  induction rows with
  | nil => intro acc h; simpa using h
  | cons t rows ih =>
    intro acc _
    simpa using ih (stepAdd dim acc t) (stepAdd_length dim acc t)

/-- C9: for a non-empty sequence of token vectors, each of dimension `D`,
mean pooling returns a vector of dimension `D` whose `i`-th component is
the arithmetic mean of the tokens' `i`-th components (the columnwise sum
divided by the token count); the empty token sequence is rejected with an
error. -/
theorem C9_mean_pooling (rows : List (List ℚ)) (D : Nat)
    (hne : rows ≠ []) (hdim : ∀ r ∈ rows, r.length = D) :
    applyMeanPooling rows
      = .ok ((List.range D).map (fun i =>
          (rows.map (fun r => r.getD i 0)).sum / (rows.length : ℚ))) ∧
    applyMeanPooling [] = .error "Cannot pool empty token embeddings" := by
  refine ⟨?_, rfl⟩
  obtain ⟨t0, rest, rfl⟩ := List.exists_cons_of_ne_nil hne
  have ht0 : t0.length = D := hdim t0 (by simp)
  show Except.ok _ = _
  rw [Except.ok.injEq]
  have hsums : (t0 :: rest).foldl (stepAdd t0.length) (List.replicate t0.length 0)
      = (List.range D).map
          (fun i => ((t0 :: rest).map (fun r => r.getD i 0)).sum) := by
    refine List.ext_getElem ?_ ?_
    · rw [foldl_stepAdd_length _ _ _ (by simp)]
      simp [ht0]
    · intro i h1 h2
      have hiD : i < D := by simpa using h2
      rw [← List.getD_eq_getElem _ 0 h1, ← List.getD_eq_getElem _ 0 h2]
      rw [foldl_stepAdd_getD _ _ _ i (ht0 ▸ hiD), getD_replicate_zero, zero_add]
      rw [List.getD_eq_getElem _ 0 h2]
      simp
  rw [hsums, List.map_map]
  rfl

/-- C9 witness: the pooling theorem applied to two token vectors of
dimension 2. -/
theorem C9_witness :
    applyMeanPooling [[1, 3], [2, 5]]
      = .ok ((List.range 2).map (fun i =>
          (([[1, 3], [2, 5]] : List (List ℚ)).map (fun r => r.getD i 0)).sum
            / (([[1, 3], [2, 5]] : List (List ℚ)).length : ℚ))) ∧
    applyMeanPooling [] = .error "Cannot pool empty token embeddings" :=
  C9_mean_pooling [[1, 3], [2, 5]] 2 (by decide) (by decide)

/-- Helper: the point ids present after one upsert — unchanged when the id
already exists, appended otherwise. -/
theorem upsertPoint_fst (s : Store) (p : String × List ℚ) :
    (upsertPoint s p).map Prod.fst =
      if p.1 ∈ s.map Prod.fst then s.map Prod.fst
      else s.map Prod.fst ++ [p.1] := by
  induction s with
  | nil => simp [upsertPoint]
  | cons q s ih =>
    by_cases h : q.1 = p.1
    · simp [upsertPoint, h]
    · simp only [upsertPoint, if_neg h, List.map_cons, ih, List.mem_cons]
      by_cases hm : p.1 ∈ s.map Prod.fst
      · simp [hm]
      · have hpq : ¬ p.1 = q.1 := fun hh => h hh.symm
        simp [hm, hpq]

/-- Helper: point lookup after one upsert — the upserted id now maps to
the new vector, every other id is untouched. -/
theorem lookupS_upsertPoint (s : Store) (p : String × List ℚ) (x : String) :
    lookupS (upsertPoint s p) x = if x = p.1 then some p.2 else lookupS s x := by
  induction s with
  | nil =>
    by_cases h : x = p.1
    · rw [if_pos h]
      subst h
      simp [upsertPoint, lookupS]
    · have h' : ¬ p.1 = x := fun hh => h hh.symm
      rw [if_neg h]
      simp [upsertPoint, lookupS, h']
  | cons q s ih =>
    by_cases h : q.1 = p.1
    · rw [upsertPoint, if_pos h]
      by_cases hx : x = p.1
      · rw [if_pos hx]
        subst hx
        simp [lookupS]
      · have hp : ¬ p.1 = x := fun hh => hx hh.symm
        have hq : ¬ q.1 = x := fun hh => hx (h ▸ hh).symm
        rw [if_neg hx, lookupS, lookupS,
          List.find?_cons_of_neg _ (by simp [hp]),
          List.find?_cons_of_neg _ (by simp [hq])]
    · rw [upsertPoint, if_neg h]
      by_cases hqx : q.1 = x
      · have hx : ¬ x = p.1 := fun hh => h (hqx.trans hh)
        rw [if_neg hx, lookupS, lookupS,
          List.find?_cons_of_pos _ (by simp [hqx]),
          List.find?_cons_of_pos _ (by simp [hqx])]
      · rw [lookupS, lookupS, List.find?_cons_of_neg _ (by simp [hqx]),
          List.find?_cons_of_neg _ (by simp [hqx])]
        by_cases hx : x = p.1
        · rw [if_pos hx]
          have := ih
          rw [if_pos hx] at this
          simpa [lookupS] using this
        · rw [if_neg hx]
          have := ih
          rw [if_neg hx] at this
          simpa [lookupS] using this

/-- Helper: ids only accumulate across a batch of upserts. -/
theorem upsertPoints_fst_mono (ps : List (String × List ℚ)) :
    ∀ (s : Store) (x : String),
      x ∈ s.map Prod.fst → x ∈ (upsertPoints s ps).map Prod.fst := by
  induction ps with
  | nil => intro s x h; simpa [upsertPoints] using h
  | cons p ps ih =>
    intro s x h
    show x ∈ (upsertPoints (upsertPoint s p) ps).map Prod.fst
    refine ih _ _ ?_
    rw [upsertPoint_fst]
    split
    · exact h
    · exact List.mem_append_left _ h

/-- Helper: after a batch upsert every upserted id is present. -/
theorem mem_fst_upsertPoints (ps : List (String × List ℚ)) :
    ∀ (s : Store), ∀ p ∈ ps, p.1 ∈ (upsertPoints s ps).map Prod.fst := by
  induction ps with
  | nil => intro s p h; exact absurd h (List.not_mem_nil p)
  | cons q ps ih =>
    intro s p hp
    rcases List.mem_cons.mp hp with rfl | hmem
    · show p.1 ∈ (upsertPoints (upsertPoint s p) ps).map Prod.fst
      refine upsertPoints_fst_mono ps _ _ ?_
      rw [upsertPoint_fst]
      split
      · assumption
      · exact List.mem_append_right _ (by simp)
    · exact ih (upsertPoint s q) p hmem

/-- Helper: a batch upsert whose ids are all already present does not
change the id sequence at all. -/
theorem upsertPoints_fst_subset (ps : List (String × List ℚ)) :
    ∀ s : Store, (∀ p ∈ ps, p.1 ∈ s.map Prod.fst) →
      (upsertPoints s ps).map Prod.fst = s.map Prod.fst := by
  induction ps with
  | nil => intro s _; rfl
  | cons p ps ih =>
    intro s h
    have hfst : (upsertPoint s p).map Prod.fst = s.map Prod.fst := by
      rw [upsertPoint_fst, if_pos (h p (by simp))]
    show (upsertPoints (upsertPoint s p) ps).map Prod.fst = s.map Prod.fst
    rw [ih _ (fun q hq => hfst ▸ h q (List.mem_cons_of_mem _ hq)), hfst]

/-- The final assignment a batch of points makes to an id: the vector of
the last point in the batch with that id, if any. -/
def finalAssign (ps : List (String × List ℚ)) (x : String) : Option (List ℚ) :=
  ps.foldl (fun acc p => if p.1 = x then some p.2 else acc) none

/-- Helper: the last-match fold from an arbitrary start equals the fold
from `none` with the start as fallback. -/
theorem finalAssign_aux (ps : List (String × List ℚ)) (x : String) :
    ∀ a : Option (List ℚ),
      ps.foldl (fun acc p => if p.1 = x then some p.2 else acc) a
        = (finalAssign ps x).elim a some := by
  induction ps with
  | nil => intro a; simp [finalAssign]
  | cons p ps ih =>
    intro a
    simp only [finalAssign, List.foldl_cons] at *
    by_cases h : p.1 = x
    · rw [if_pos h, if_pos h, ih (some p.2)]
      cases hF : ps.foldl (fun acc p => if p.1 = x then some p.2 else acc) none <;>
        simp [hF, Option.elim]
    · rw [if_neg h, if_neg h, ih a]

/-- Helper: lookup after a batch upsert — the batch's final assignment for
the id, falling back to the old store. -/
theorem lookupS_upsertPoints (ps : List (String × List ℚ)) :
    ∀ (s : Store) (x : String),
      lookupS (upsertPoints s ps) x = (finalAssign ps x).elim (lookupS s x) some := by
  induction ps with
  | nil => intro s x; simp [upsertPoints, finalAssign]
  | cons p ps ih =>
    intro s x
    show lookupS (upsertPoints (upsertPoint s p) ps) x = _
    rw [ih, lookupS_upsertPoint]
    have hfa : finalAssign (p :: ps) x
        = (finalAssign ps x).elim (if p.1 = x then some p.2 else none) some := by
      simp only [finalAssign, List.foldl_cons]
      rw [finalAssign_aux ps x]
      rfl
    rw [hfa]
    rcases hf : finalAssign ps x with _ | v
    · simp only [Option.elim]
      by_cases h : x = p.1
      · rw [if_pos h, if_pos h.symm]
      · rw [if_neg h, if_neg (fun hh => h hh.symm)]
    · simp [Option.elim]

/-- C4: `upsertMovieEmbeddings` is idempotent — calling it twice with the
identical (non-empty) embedding record leaves the backend in the same
observable state as calling it once: the same point ids in the same order,
the same vector under every id, the same total point count, and the same
returned key map. -/
theorem C4_upsert_idempotent (s S1 S2 : Store) (mid : String)
    (es : List (String × List ℚ)) (ks ks2 : List (String × String))
    (hne : es ≠ [])
    (h1 : upsertMovieEmbeddings s mid es = .ok (S1, ks))
    (h2 : upsertMovieEmbeddings S1 mid es = .ok (S2, ks2)) :
    ks2 = ks ∧ S2.map Prod.fst = S1.map Prod.fst ∧ S2.length = S1.length ∧
    lookupS S2 = lookupS S1 := by
  unfold upsertMovieEmbeddings at h1 h2
  rw [if_neg (by simpa [List.isEmpty_iff] using hne)] at h1 h2
  rw [Except.ok.injEq, Prod.mk.injEq] at h1 h2
  obtain ⟨hS1, hks⟩ := h1
  obtain ⟨hS2, hks2⟩ := h2
  subst hS1
  subst hS2
  subst hks
  subst hks2
  have hkeys : (upsertPoints (upsertPoints s (buildPoints mid es))
        (buildPoints mid es)).map Prod.fst
      = (upsertPoints s (buildPoints mid es)).map Prod.fst :=
    upsertPoints_fst_subset _ _ (fun p hp => mem_fst_upsertPoints _ s p hp)
  refine ⟨rfl, hkeys, ?_, ?_⟩
  · have := congrArg List.length hkeys
    simpa using this
  · funext x
    rw [lookupS_upsertPoints, lookupS_upsertPoints]
    cases hF : finalAssign (buildPoints mid es) x <;> simp [hF, Option.elim]

/-- C4 witness: the idempotence theorem applied to an initially empty
store and one concrete plot embedding. -/
theorem C4_witness :
    ([("plot", "m1:plot")] : List (String × String)) = [("plot", "m1:plot")] ∧
    ([("m1:plot", [(1 : ℚ), 0])] : Store).map Prod.fst
      = ([("m1:plot", [(1 : ℚ), 0])] : Store).map Prod.fst ∧
    ([("m1:plot", [(1 : ℚ), 0])] : Store).length
      = ([("m1:plot", [(1 : ℚ), 0])] : Store).length ∧
    lookupS [("m1:plot", [(1 : ℚ), 0])] = lookupS [("m1:plot", [(1 : ℚ), 0])] :=
  C4_upsert_idempotent [] [("m1:plot", [(1 : ℚ), 0])] [("m1:plot", [(1 : ℚ), 0])]
    "m1" [("plot", [(1 : ℚ), 0])] [("plot", "m1:plot")] [("plot", "m1:plot")]
    (by decide) rfl rfl

/-- Helper: the movie ids present after one best-score insertion —
unchanged when the id already exists, appended otherwise. -/
theorem upsertBest_fst (acc : List (String × ℚ)) (m : String × ℚ) :
    (upsertBest acc m).map Prod.fst =
      if m.1 ∈ acc.map Prod.fst then acc.map Prod.fst
      else acc.map Prod.fst ++ [m.1] := by
  induction acc with
  | nil => simp [upsertBest]
  | cons p ps ih =>
    by_cases h : p.1 = m.1
    · by_cases hgt : m.2 > p.2 <;> simp [upsertBest, h, hgt]
    · simp only [upsertBest, if_neg h, List.map_cons, ih, List.mem_cons]
      by_cases hm : m.1 ∈ ps.map Prod.fst
      · simp [hm]
      · have hmp : ¬ m.1 = p.1 := fun hh => h hh.symm
        simp [hm, hmp]

/-- Helper: best-score insertion preserves distinctness of movie ids. -/
theorem upsertBest_fst_nodup {acc : List (String × ℚ)} (m : String × ℚ)
    (h : (acc.map Prod.fst).Nodup) :
    ((upsertBest acc m).map Prod.fst).Nodup := by
  rw [upsertBest_fst]
  split
  · exact h
  · rename_i hm
    exact ((List.perm_append_singleton _ _).nodup_iff).mpr
      (List.nodup_cons.mpr ⟨hm, h⟩)

/-- Helper: the deduplication fold keeps movie ids distinct. -/
theorem foldl_upsertBest_nodup (ms : List (String × ℚ)) :
    ∀ acc : List (String × ℚ), (acc.map Prod.fst).Nodup →
      ((ms.foldl upsertBest acc).map Prod.fst).Nodup := by
  induction ms with
  | nil => intro acc h; simpa using h
  | cons m ms ih =>
    intro acc h
    rw [List.foldl_cons]
    exact ih _ (upsertBest_fst_nodup m h)

/-- Helper: the whole deduplicated list has pairwise-distinct movie ids. -/
theorem dedupeBest_fst_nodup (ms : List (String × ℚ)) :
    ((dedupeBest ms).map Prod.fst).Nodup :=
  foldl_upsertBest_nodup ms [] (by simp)

/-- Helper: characterization of one best-score insertion under distinct
ids — each result entry is either an old entry that the new match does not
beat, or the new match itself (either on a fresh id or strictly beating
the old entry for its id). -/
theorem upsertBest_spec (acc : List (String × ℚ)) (m : String × ℚ)
    (hnd : (acc.map Prod.fst).Nodup) :
    ∀ x ∈ upsertBest acc m,
      (x ∈ acc ∧ (x.1 ≠ m.1 ∨ m.2 ≤ x.2)) ∨
      (x = m ∧ (m.1 ∉ acc.map Prod.fst ∨ ∃ p ∈ acc, p.1 = m.1 ∧ p.2 < m.2)) := by
  induction acc with
  | nil =>
    intro x hx
    simp only [upsertBest, List.mem_singleton] at hx
    subst hx
    right
    exact ⟨rfl, .inl (by simp)⟩
  | cons p ps ih =>
    intro x hx
    have hndp : p.1 ∉ ps.map Prod.fst := (List.nodup_cons.mp (by simpa using hnd)).1
    have hnds : (ps.map Prod.fst).Nodup := (List.nodup_cons.mp (by simpa using hnd)).2
    by_cases h : p.1 = m.1
    · rw [upsertBest, if_pos h] at hx
      by_cases hgt : m.2 > p.2
      · rw [if_pos hgt] at hx
        rcases List.mem_cons.mp hx with rfl | hxs
        · right
          refine ⟨Prod.ext h rfl, .inr ⟨p, by simp, h, hgt⟩⟩
        · left
          refine ⟨List.mem_cons_of_mem _ hxs, .inl ?_⟩
          intro hxm
          have hmem : x.1 ∈ ps.map Prod.fst := List.mem_map_of_mem Prod.fst hxs
          rw [hxm, ← h] at hmem
          exact hndp hmem
      · rw [if_neg hgt] at hx
        rcases List.mem_cons.mp hx with rfl | hxs
        · exact .inl ⟨by simp, .inr (le_of_not_lt hgt)⟩
        · left
          refine ⟨List.mem_cons_of_mem _ hxs, .inl ?_⟩
          intro hxm
          have hmem : x.1 ∈ ps.map Prod.fst := List.mem_map_of_mem Prod.fst hxs
          rw [hxm, ← h] at hmem
          exact hndp hmem
    · rw [upsertBest, if_neg h] at hx
      rcases List.mem_cons.mp hx with rfl | hxs
      · exact .inl ⟨by simp, .inl (fun hh => h hh)⟩
      · rcases ih hnds x hxs with ⟨hin, hd⟩ | ⟨rfl, hc⟩
        · exact .inl ⟨List.mem_cons_of_mem _ hin, hd⟩
        · right
          refine ⟨rfl, ?_⟩
          rcases hc with hnotin | ⟨q, hq, hq1, hq2⟩
          · left
            simp only [List.map_cons, List.mem_cons, not_or]
            exact ⟨fun hh => h hh.symm, hnotin⟩
          · exact .inr ⟨q, List.mem_cons_of_mem _ hq, hq1, hq2⟩

/-- Helper: invariant of the deduplication fold — with an accumulator of
distinct ids whose entries are the per-id maxima of the matches seen so
far (`seen`), and whose ids cover all seen matches, every entry of the
completed fold is one of the processed matches and beats every
same-id processed match. -/
theorem foldl_upsertBest_spec (ms : List (String × ℚ)) :
    ∀ (acc seen : List (String × ℚ)),
      (acc.map Prod.fst).Nodup →
      (∀ x ∈ acc, x ∈ seen ∧ ∀ q ∈ seen, q.1 = x.1 → q.2 ≤ x.2) →
      (∀ q ∈ seen, q.1 ∈ acc.map Prod.fst) →
      ∀ x ∈ ms.foldl upsertBest acc,
        x ∈ seen ++ ms ∧ ∀ q ∈ seen ++ ms, q.1 = x.1 → q.2 ≤ x.2 := by
  induction ms with
  | nil =>
    intro acc seen _ hbest _ x hx
    simpa using hbest x (by simpa using hx)
  | cons m ms ih =>
    intro acc seen hnd hbest hkeys x hx
    rw [List.foldl_cons] at hx
    have hnd' := upsertBest_fst_nodup m hnd
    have hbest' : ∀ y ∈ upsertBest acc m,
        y ∈ seen ++ [m] ∧ ∀ q ∈ seen ++ [m], q.1 = y.1 → q.2 ≤ y.2 := by
      intro y hy
      rcases upsertBest_spec acc m hnd y hy with ⟨hin, hd⟩ | ⟨hym, hc⟩
      · obtain ⟨hseen, hmax⟩ := hbest y hin
        refine ⟨List.mem_append_left _ hseen, ?_⟩
        intro q hq hq1
        rcases List.mem_append.mp hq with hq | hq
        · exact hmax q hq hq1
        · have hqm : q = m := by simpa using hq
          subst hqm
          rcases hd with hne | hle
          · exact absurd hq1.symm hne
          · exact hle
      · have hy1 : y.1 = m.1 := congrArg Prod.fst hym
        have hy2 : y.2 = m.2 := congrArg Prod.snd hym
        refine ⟨List.mem_append_right _ (by simp [hym]), ?_⟩
        intro q hq hq1
        rcases List.mem_append.mp hq with hq | hq
        · rcases hc with hnotin | ⟨p, hp, hp1, hp2⟩
          · have hqmem : q.1 ∈ acc.map Prod.fst := hkeys q hq
            rw [hq1, hy1] at hqmem
            exact absurd hqmem hnotin
          · obtain ⟨_, hmax⟩ := hbest p hp
            have hle := lt_of_le_of_lt
              (hmax q hq (hq1.trans (hy1.trans hp1.symm))) hp2
            rw [← hy2] at hle
            exact le_of_lt hle
        · have hqm : q = m := by simpa using hq
          subst hqm
          exact le_of_eq hy2.symm
    have hkeys' : ∀ q ∈ seen ++ [m], q.1 ∈ (upsertBest acc m).map Prod.fst := by
      intro q hq
      rw [upsertBest_fst]
      rcases List.mem_append.mp hq with hq | hq
      · have hmem := hkeys q hq
        split
        · exact hmem
        · exact List.mem_append_left _ hmem
      · have hqm : q = m := by simpa using hq
        subst hqm
        split
        · assumption
        · exact List.mem_append_right _ (by simp)
    have hres := ih (upsertBest acc m) (seen ++ [m]) hnd' hbest' hkeys' x hx
    rw [List.append_assoc] at hres
    simpa using hres

/-- Helper: every entry of the deduplicated list is one of the original
matches and carries the maximum score among all same-id matches. -/
theorem dedupeBest_spec (ms : List (String × ℚ)) :
    ∀ x ∈ dedupeBest ms, x ∈ ms ∧ ∀ q ∈ ms, q.1 = x.1 → q.2 ≤ x.2 := by
  intro x hx
  have h := foldl_upsertBest_spec ms [] [] (by simp) (by simp) (by simp) x hx
  simpa using h

/-- Helper: ids only accumulate across the deduplication fold. -/
theorem foldl_upsertBest_fst_mono (ms : List (String × ℚ)) :
    ∀ (acc : List (String × ℚ)) (x : String), x ∈ acc.map Prod.fst →
      x ∈ (ms.foldl upsertBest acc).map Prod.fst := by
  induction ms with
  | nil => intro acc x h; simpa using h
  | cons m ms ih =>
    intro acc x h
    rw [List.foldl_cons]
    refine ih _ _ ?_
    rw [upsertBest_fst]
    split
    · exact h
    · exact List.mem_append_left _ h

/-- Helper: every neighbor's id survives deduplication. -/
theorem mem_fst_dedupeBest (ms : List (String × ℚ)) :
    ∀ q ∈ ms, q.1 ∈ (dedupeBest ms).map Prod.fst := by
  suffices h : ∀ (acc : List (String × ℚ)), ∀ q ∈ ms,
      q.1 ∈ (ms.foldl upsertBest acc).map Prod.fst from
    fun q hq => h [] q hq
  induction ms with
  | nil => intro acc q hq; exact absurd hq (List.not_mem_nil q)
  | cons m ms ih =>
    intro acc q hq
    rw [List.foldl_cons]
    rcases List.mem_cons.mp hq with rfl | hmem
    · refine foldl_upsertBest_fst_mono ms _ _ ?_
      rw [upsertBest_fst]
      split
      · assumption
      · exact List.mem_append_right _ (by simp)
    · exact ih _ q hmem

/-- Helper: one best-score insertion grows the list by at most one entry. -/
theorem upsertBest_length (acc : List (String × ℚ)) (m : String × ℚ) :
    (upsertBest acc m).length ≤ acc.length + 1 := by
  induction acc with
  | nil => simp [upsertBest]
  | cons p ps ih =>
    by_cases h : p.1 = m.1
    · by_cases hgt : m.2 > p.2 <;> simp [upsertBest, h, hgt]
    · simp only [upsertBest, if_neg h, List.length_cons]
      omega

/-- Helper: deduplication never yields more entries than neighbors. -/
theorem dedupeBest_length (ms : List (String × ℚ)) :
    (dedupeBest ms).length ≤ ms.length := by
  suffices h : ∀ acc : List (String × ℚ),
      (ms.foldl upsertBest acc).length ≤ acc.length + ms.length by
    simpa using h []
  induction ms with
  | nil => intro acc; simp
  | cons m ms ih =>
    intro acc
    rw [List.foldl_cons]
    calc ((ms.foldl upsertBest (upsertBest acc m)).length)
        ≤ (upsertBest acc m).length + ms.length := ih _
      _ ≤ acc.length + 1 + ms.length := by
          have := upsertBest_length acc m
          omega
      _ = acc.length + (m :: ms).length := by simp; omega

/-- C2: the merged search result of `searchMoviesByEmbedding` contains
each movie id at most once (pairwise-distinct ids); every result entry is
one of the neighbor matches and carries the highest score among all
occurrences of its id; the result is sorted by descending score and has at
most `limit` entries; with a large enough limit every neighbor id is
represented; and on the concrete neighbor list
`[(A, 0.9), (B, 0.8), (A, 0.95)]` the merge yields `A` once with score
0.95 followed by `B` with 0.8. -/
theorem C2_merge_dedupes_sorts_truncates (ms : List (String × ℚ)) (limit : Nat) :
    ((mergeNeighbors ms limit).map Prod.fst).Nodup ∧
    (∀ x ∈ mergeNeighbors ms limit, x ∈ ms ∧ ∀ q ∈ ms, q.1 = x.1 → q.2 ≤ x.2) ∧
    (mergeNeighbors ms limit).Sorted scoreGe ∧
    (mergeNeighbors ms limit).length ≤ limit ∧
    (∀ q ∈ ms, q.1 ∈ (mergeNeighbors ms ms.length).map Prod.fst) ∧
    mergeNeighbors [("A", 9/10), ("B", 8/10), ("A", 19/20)] 10
      = [("A", 19/20), ("B", 8/10)] := by
  have hperm := List.perm_insertionSort scoreGe (dedupeBest ms)
  refine ⟨?_, ?_, ?_, ?_, ?_, ?_⟩
  · have hnd : ((List.insertionSort scoreGe (dedupeBest ms)).map Prod.fst).Nodup :=
      ((hperm.map Prod.fst).nodup_iff).mpr (dedupeBest_fst_nodup ms)
    rw [mergeNeighbors]
    exact List.Nodup.sublist ((List.take_sublist _ _).map _) hnd
  · intro x hx
    rw [mergeNeighbors] at hx
    have hx' : x ∈ List.insertionSort scoreGe (dedupeBest ms) :=
      (List.take_sublist _ _).subset hx
    exact dedupeBest_spec ms x (hperm.mem_iff.mp hx')
  · rw [mergeNeighbors]
    exact List.Pairwise.sublist (List.take_sublist _ _)
      (List.sorted_insertionSort scoreGe (dedupeBest ms))
  · rw [mergeNeighbors]
    exact List.length_take_le _ _
  · intro q hq
    rw [mergeNeighbors]
    have hlen : (List.insertionSort scoreGe (dedupeBest ms)).length ≤ ms.length := by
      rw [hperm.length_eq]
      exact dedupeBest_length ms
    rw [List.take_of_length_le hlen]
    exact ((hperm.map Prod.fst).mem_iff).mpr (mem_fst_dedupeBest ms q hq)
  · norm_num [mergeNeighbors, dedupeBest, upsertBest, List.insertionSort,
      List.orderedInsert, scoreGe]

/-- C2 witness: the merge theorem's concrete conjunct — the neighbor list
`[(A, 0.9), (B, 0.8), (A, 0.95)]` merges to `[(A, 0.95), (B, 0.8)]`. -/
theorem C2_witness :
    mergeNeighbors [("A", 9/10), ("B", 8/10), ("A", 19/20)] 10
      = [("A", 19/20), ("B", 8/10)] :=
  (C2_merge_dedupes_sorts_truncates [] 0).2.2.2.2.2

/-- Helper: members of every group carry that group's key. -/
theorem groupInsert_key (gs : List (String × List MovieRec)) (k : String)
    (m : MovieRec) (hkey : dedupeKey m = k)
    (hinv : ∀ kg ∈ gs, ∀ x ∈ kg.2, dedupeKey x = kg.1) :
    ∀ kg ∈ groupInsert gs k m, ∀ x ∈ kg.2, dedupeKey x = kg.1 := by
  induction gs with
  | nil =>
    intro kg hkg x hx
    simp only [groupInsert, List.mem_singleton] at hkg
    subst hkg
    have hxm : x = m := by simpa using hx
    subst hxm
    exact hkey
  | cons g gs ih =>
    intro kg hkg x hx
    rw [groupInsert] at hkg
    by_cases h : g.1 = k
    · rw [if_pos h] at hkg
      rcases List.mem_cons.mp hkg with rfl | hmem
      · rcases List.mem_append.mp hx with hx' | hx'
        · exact hinv g (by simp) x hx'
        · have hxm : x = m := by simpa using hx'
          subst hxm
          exact hkey.trans h.symm
      · exact hinv kg (List.mem_cons_of_mem _ hmem) x hx
    · rw [if_neg h] at hkg
      rcases List.mem_cons.mp hkg with rfl | hmem
      · exact hinv _ (List.mem_cons_self _ _) x hx
      · exact ih (fun kg' hkg' => hinv kg' (List.mem_cons_of_mem _ hkg'))
          kg hmem x hx

/-- Helper: every group of `groupMovies` holds only records with that
group's key. -/
theorem groupMovies_key (ms : List MovieRec) :
    ∀ kg ∈ groupMovies ms, ∀ x ∈ kg.2, dedupeKey x = kg.1 := by
  suffices aux : ∀ gs0 : List (String × List MovieRec),
      (∀ kg ∈ gs0, ∀ x ∈ kg.2, dedupeKey x = kg.1) →
      ∀ kg ∈ ms.foldl (fun gs m => groupInsert gs (dedupeKey m) m) gs0,
        ∀ x ∈ kg.2, dedupeKey x = kg.1 by
    exact aux [] (by simp)
  induction ms with
  | nil => intro gs0 hinv kg hkg; exact hinv kg (by simpa using hkg)
  | cons m ms ih =>
    intro gs0 hinv kg hkg
    rw [List.foldl_cons] at hkg
    exact ih _ (groupInsert_key gs0 (dedupeKey m) m rfl hinv) kg hkg

/-- Helper: group keys after one insertion — unchanged when the key is
already a group, appended otherwise. -/
theorem groupInsert_fst (gs : List (String × List MovieRec)) (k : String)
    (m : MovieRec) :
    (groupInsert gs k m).map Prod.fst =
      if k ∈ gs.map Prod.fst then gs.map Prod.fst
      else gs.map Prod.fst ++ [k] := by
  induction gs with
  | nil => simp [groupInsert]
  | cons g gs ih =>
    by_cases h : g.1 = k
    · simp [groupInsert, h]
    · simp only [groupInsert, if_neg h, List.map_cons, ih, List.mem_cons]
      by_cases hm : k ∈ gs.map Prod.fst
      · simp [hm]
      · have hkg : ¬ k = g.1 := fun hh => h hh.symm
        simp [hm, hkg]

/-- Helper: the group keys of `groupMovies` are pairwise distinct. -/
theorem groupMovies_fst_nodup (ms : List MovieRec) :
    ((groupMovies ms).map Prod.fst).Nodup := by
  suffices aux : ∀ gs0 : List (String × List MovieRec),
      (gs0.map Prod.fst).Nodup →
      ((ms.foldl (fun gs m => groupInsert gs (dedupeKey m) m) gs0).map
        Prod.fst).Nodup by
    exact aux [] (by simp)
  induction ms with
  | nil => intro gs0 h; simpa using h
  | cons m ms ih =>
    intro gs0 h
    rw [List.foldl_cons]
    refine ih _ ?_
    rw [groupInsert_fst]
    split
    · exact h
    · rename_i hm
      exact ((List.perm_append_singleton _ _).nodup_iff).mpr
        (List.nodup_cons.mpr ⟨hm, h⟩)

/-- Helper: groups are never empty. -/
theorem groupMovies_ne_nil (ms : List MovieRec) :
    ∀ kg ∈ groupMovies ms, kg.2 ≠ [] := by
  suffices aux : ∀ gs0 : List (String × List MovieRec),
      (∀ kg ∈ gs0, kg.2 ≠ []) →
      ∀ kg ∈ ms.foldl (fun gs m => groupInsert gs (dedupeKey m) m) gs0,
        kg.2 ≠ [] by
    exact aux [] (by simp)
  have hstep : ∀ (gs : List (String × List MovieRec)) (k : String)
      (m : MovieRec), (∀ kg ∈ gs, kg.2 ≠ []) →
      ∀ kg ∈ groupInsert gs k m, kg.2 ≠ [] := by
    intro gs k m hinv
    induction gs with
    | nil =>
      intro kg hkg
      simp only [groupInsert, List.mem_singleton] at hkg
      subst hkg
      simp
    | cons g gs ihg =>
      intro kg hkg
      rw [groupInsert] at hkg
      by_cases h : g.1 = k
      · rw [if_pos h] at hkg
        rcases List.mem_cons.mp hkg with rfl | hmem
        · simp
        · exact hinv kg (List.mem_cons_of_mem _ hmem)
      · rw [if_neg h] at hkg
        rcases List.mem_cons.mp hkg with rfl | hmem
        · exact hinv _ (List.mem_cons_self _ _)
        · exact ihg (fun kg' hkg' => hinv kg' (List.mem_cons_of_mem _ hkg'))
            kg hmem
  induction ms with
  | nil => intro gs0 hinv kg hkg; exact hinv kg (by simpa using hkg)
  | cons m ms ih =>
    intro gs0 hinv kg hkg
    rw [List.foldl_cons] at hkg
    exact ih _ (hstep gs0 (dedupeKey m) m hinv) kg hkg

/-- Helper: inserting one record into the group map appends it, up to
permutation, to the concatenation of all groups. -/
theorem groupInsert_flatten_perm (gs : List (String × List MovieRec))
    (k : String) (m : MovieRec) :
    List.Perm ((groupInsert gs k m).map (fun kg => kg.2)).flatten
      (((gs.map (fun kg => kg.2)).flatten) ++ [m]) := by
  induction gs with
  | nil => simp [groupInsert]
  | cons g gs ih =>
    by_cases h : g.1 = k
    · rw [groupInsert, if_pos h]
      simp only [List.map_cons, List.flatten_cons]
      rw [List.append_assoc g.2 [m], List.append_assoc g.2 _ [m]]
      exact (List.perm_append_comm).append_left g.2
    · rw [groupInsert, if_neg h]
      simp only [List.map_cons, List.flatten_cons]
      rw [List.append_assoc g.2 _ [m]]
      exact ih.append_left g.2

/-- Helper: the concatenation of all groups is a permutation of the
catalog. -/
theorem groupMovies_flatten_perm (ms : List MovieRec) :
    List.Perm ((groupMovies ms).map (fun kg => kg.2)).flatten ms := by
  suffices aux : ∀ gs0 : List (String × List MovieRec),
      List.Perm ((ms.foldl (fun gs m => groupInsert gs (dedupeKey m) m)
          gs0).map (fun kg => kg.2)).flatten
        (((gs0.map (fun kg => kg.2)).flatten) ++ ms) by
    simpa using aux []
  induction ms with
  | nil => intro gs0; simp
  | cons m ms ih =>
    intro gs0
    rw [List.foldl_cons]
    refine (ih (groupInsert gs0 (dedupeKey m) m)).trans ?_
    have h1 := (groupInsert_flatten_perm gs0 (dedupeKey m) m).append_right ms
    refine h1.trans ?_
    rw [List.append_assoc]
    rfl

/-- Helper: with globally distinct record ids, each group's ids are
distinct. -/
theorem group_ids_nodup (ms : List MovieRec)
    (hnd : (ms.map (fun m => m.mid)).Nodup) :
    ∀ kg ∈ groupMovies ms, (kg.2.map (fun m => m.mid)).Nodup := by
  intro kg hkg
  have hperm := groupMovies_flatten_perm ms
  have hfl : ((((groupMovies ms).map (fun kg => kg.2)).flatten).map
      (fun m => m.mid)).Nodup :=
    ((hperm.map (fun m => m.mid)).nodup_iff).mpr hnd
  have hsub : List.Sublist kg.2 ((groupMovies ms).map (fun kg => kg.2)).flatten :=
    List.sublist_flatten_of_mem (List.mem_map_of_mem _ hkg)
  exact List.Nodup.sublist (hsub.map _) hfl

/-- Helper: the survivor is a member of its (non-empty) group. -/
theorem chooseSurvivor_mem : ∀ g : List MovieRec, g ≠ [] →
    chooseSurvivor g ∈ g := by
  have aux : ∀ (rest : List MovieRec) (acc : MovieRec) (S : List MovieRec),
      acc ∈ S → (∀ x ∈ rest, x ∈ S) →
      rest.foldl (fun acc m => if survGt m acc then m else acc) acc ∈ S := by
    intro rest
    induction rest with
    | nil => intro acc S hacc _; simpa using hacc
    | cons r rest ih =>
      intro acc S hacc hrest
      rw [List.foldl_cons]
      refine ih _ S ?_ (fun x hx => hrest x (List.mem_cons_of_mem _ hx))
      by_cases h : survGt r acc
      · simpa [h] using hrest r (by simp)
      · simpa [h] using hacc
  intro g hg
  cases g with
  | nil => exact absurd rfl hg
  | cons m0 rest =>
    exact aux rest m0 (m0 :: rest) (by simp) (fun x hx => List.mem_cons_of_mem _ hx)

/-- Helper: removing the one entry with the survivor's id from a group of
distinct ids drops exactly one record. -/
theorem filter_ne_mid_length (g : List MovieRec) (s : MovieRec)
    (hnd : (g.map (fun m => m.mid)).Nodup) (hs : s ∈ g) :
    (g.filter (fun d => ¬ d.mid = s.mid)).length = g.length - 1 := by
  induction g with
  | nil => exact absurd hs (List.not_mem_nil s)
  | cons a g ih =>
    have ha : a.mid ∉ g.map (fun m => m.mid) :=
      (List.nodup_cons.mp (by simpa using hnd)).1
    have hg : (g.map (fun m => m.mid)).Nodup :=
      (List.nodup_cons.mp (by simpa using hnd)).2
    rcases List.mem_cons.mp hs with rfl | hmem
    · rw [List.filter_cons_of_neg (by simp)]
      have hkeep : g.filter (fun d => ¬ d.mid = s.mid) = g := by
        refine List.filter_eq_self.mpr ?_
        intro d hd
        simp only [decide_eq_true_eq]
        intro hda
        refine ha ?_
        rw [← hda]
        exact List.mem_map_of_mem _ hd
      rw [hkeep]
      simp
    · have hsm : s.mid ∈ g.map (fun m => m.mid) := List.mem_map_of_mem _ hmem
      have hne : ¬ a.mid = s.mid := by
        intro hh
        refine ha ?_
        rw [hh]
        exact hsm
      rw [List.filter_cons_of_pos (by simpa using hne), List.length_cons,
        ih hg hmem]
      have hpos : 1 ≤ g.length := List.length_pos.mpr (List.ne_nil_of_mem hmem)
      simp only [List.length_cons]
      omega

/-- Helper: a list of positive naturals has sum at least its length. -/
theorem length_le_sum_of_one_le (l : List Nat) (h : ∀ x ∈ l, 1 ≤ x) :
    l.length ≤ l.sum := by
  induction l with
  | nil => simp
  | cons a l ih =>
    have ha := h a (by simp)
    have := ih (fun x hx => h x (List.mem_cons_of_mem _ hx))
    simp only [List.length_cons, List.sum_cons]
    omega

/-- Helper: summing `size - 1` over positive sizes gives total size minus
count. -/
theorem sum_sub_one (l : List Nat) (h : ∀ x ∈ l, 1 ≤ x) :
    (l.map (fun x => x - 1)).sum = l.sum - l.length := by
  induction l with
  | nil => simp
  | cons a l ih =>
    have ha := h a (by simp)
    have hl := ih (fun x hx => h x (List.mem_cons_of_mem _ hx))
    have hls := length_le_sum_of_one_le l (fun x hx => h x (List.mem_cons_of_mem _ hx))
    simp only [List.map_cons, List.sum_cons, List.length_cons]
    omega

/-- Helper: the total size of all groups is the catalog size. -/
theorem groupMovies_sizes (ms : List MovieRec) :
    ((groupMovies ms).map (fun kg => kg.2.length)).sum = ms.length := by
  have hperm := (groupMovies_flatten_perm ms).length_eq
  rw [← hperm, List.length_flatten, List.map_map]
  rfl

/-- Helper: poster migration does not change the dedupe key (it only
touches the poster fields, never title or release year). -/
theorem dedupeKey_migratePoster (s : MovieRec) (g : List MovieRec) :
    dedupeKey (migratePoster s g) = dedupeKey s := by
  unfold migratePoster
  split
  · rfl
  · split
    · rfl
    · rfl

/-- Helper: processing one non-empty group leaves exactly one record, and
it carries the group's key. -/
theorem survivingGroup_key (g : List MovieRec) (k : String) (hne : g ≠ [])
    (hkey : ∀ x ∈ g, dedupeKey x = k) :
    ∃ y, survivingGroup g = [y] ∧ dedupeKey y = k := by
  by_cases h : g.length ≤ 1
  · have h1 : g.length = 1 := by
      have := List.length_pos.mpr hne
      omega
    obtain ⟨x, rfl⟩ := List.length_eq_one.mp h1
    exact ⟨x, by rw [survivingGroup, if_pos h], hkey x (by simp)⟩
  · refine ⟨migratePoster (chooseSurvivor g) g, ?_, ?_⟩
    · rw [survivingGroup, if_neg h]
    · rw [dedupeKey_migratePoster]
      exact hkey _ (chooseSurvivor_mem g hne)

/-- Helper: the keys of the post-dedupe catalog are exactly the group
keys, in order. -/
theorem flatten_surviving_keys (gs : List (String × List MovieRec))
    (hne : ∀ kg ∈ gs, kg.2 ≠ [])
    (hkey : ∀ kg ∈ gs, ∀ x ∈ kg.2, dedupeKey x = kg.1) :
    ((gs.map (fun kg => survivingGroup kg.2)).flatten).map dedupeKey
      = gs.map Prod.fst := by
  induction gs with
  | nil => rfl
  | cons kg gs ih =>
    simp only [List.map_cons, List.flatten_cons, List.map_append]
    obtain ⟨y, hy, hyk⟩ := survivingGroup_key kg.2 kg.1 (hne kg (by simp))
        (hkey kg (by simp))
    rw [hy, ih (fun kg' h => hne kg' (List.mem_cons_of_mem _ h))
        (fun kg' h => hkey kg' (List.mem_cons_of_mem _ h))]
    simp [hyk]

/-- Helper: inserting under a fresh key appends a new singleton group. -/
theorem groupInsert_of_not_mem (gs : List (String × List MovieRec))
    (k : String) (m : MovieRec) (h : k ∉ gs.map Prod.fst) :
    groupInsert gs k m = gs ++ [(k, [m])] := by
  induction gs with
  | nil => rfl
  | cons g gs ih =>
    have hk : ¬ g.1 = k := by
      intro hh
      exact h (by simp [hh])
    rw [groupInsert, if_neg hk, ih (fun hin => h (List.mem_cons_of_mem _ hin))]
    rfl

/-- Helper: a catalog whose dedupe keys are pairwise distinct groups into
singletons. -/
theorem groupMovies_of_nodup_keys (ms : List MovieRec)
    (h : (ms.map dedupeKey).Nodup) :
    groupMovies ms = ms.map (fun m => (dedupeKey m, [m])) := by
  suffices aux : ∀ (ns : List MovieRec) (gs0 : List (String × List MovieRec)),
      (∀ m' ∈ ns, dedupeKey m' ∉ gs0.map Prod.fst) →
      (ns.map dedupeKey).Nodup →
      ns.foldl (fun gs m => groupInsert gs (dedupeKey m) m) gs0
        = gs0 ++ ns.map (fun m => (dedupeKey m, [m])) by
    simpa using aux ms [] (by simp) h
  intro ns
  induction ns with
  | nil => intro gs0 _ _; simp
  | cons m ns ih =>
    intro gs0 hfresh hnd
    rw [List.foldl_cons, groupInsert_of_not_mem _ _ _ (hfresh m (by simp))]
    have hnd' : (ns.map dedupeKey).Nodup :=
      (List.nodup_cons.mp (by simpa using hnd)).2
    have hm : dedupeKey m ∉ ns.map dedupeKey :=
      (List.nodup_cons.mp (by simpa using hnd)).1
    rw [ih _ ?_ hnd']
    · simp
    · intro m' hm'
      simp only [List.map_append, List.mem_append]
      rintro (hin | hin)
      · exact hfresh m' (List.mem_cons_of_mem _ hm') hin
      · have hk : dedupeKey m' = dedupeKey m := by simpa using hin
        refine hm ?_
        rw [← hk]
        exact List.mem_map_of_mem _ hm'

/-- Helper: with pairwise-distinct dedupe keys, a dedupe run deletes
nothing. -/
theorem dedupe_removed_of_nodup_keys (ms : List MovieRec)
    (h : (ms.map dedupeKey).Nodup) : (dedupeMovies ms).removed = 0 := by
  show ((groupMovies ms).map (fun kg => groupRemovedCount kg.2)).sum = 0
  rw [groupMovies_of_nodup_keys ms h, List.map_map]
  have hz : ∀ m ∈ ms,
      ((fun kg : String × List MovieRec => groupRemovedCount kg.2) ∘
        fun m => (dedupeKey m, [m])) m = 0 := by
    intro m _
    simp [Function.comp, groupRemovedCount]
  rw [List.map_congr_left hz]
  simp

/-- Helper: summing the constant 1 over a list counts its elements. -/
theorem sum_map_one (l : List (String × List MovieRec)) :
    (l.map (fun _ => (1 : Nat))).sum = l.length := by
  induction l with
  | nil => rfl
  | cons a l ih => simp [ih]; omega

/-- C8: with pairwise-distinct record ids, one `dedupeMovies` run removes
exactly `N - G` records (catalog size minus number of title+year groups),
keeps one record per group, and a second run on the resulting catalog
removes zero records — the routine is idempotent. -/
theorem C8_dedupe_counts_and_idempotent (ms : List MovieRec)
    (hnd : (ms.map (fun m => m.mid)).Nodup) :
    (dedupeMovies ms).removed = ms.length - (dedupeMovies ms).totalGroups ∧
    (dedupeMovies ms).kept = (dedupeMovies ms).totalGroups ∧
    (dedupeMovies (dedupeMovies ms).catalog).removed = 0 := by
  have hone : ∀ x ∈ (groupMovies ms).map (fun kg => kg.2.length), 1 ≤ x := by
    intro x hx
    rw [List.mem_map] at hx
    obtain ⟨kg, hkg, rfl⟩ := hx
    exact List.length_pos.mpr (groupMovies_ne_nil ms kg hkg)
  refine ⟨?_, ?_, ?_⟩
  · show ((groupMovies ms).map (fun kg => groupRemovedCount kg.2)).sum
      = ms.length - (groupMovies ms).length
    have hcong : (groupMovies ms).map (fun kg => groupRemovedCount kg.2)
        = (groupMovies ms).map (fun kg => kg.2.length - 1) := by
      refine List.map_congr_left (fun kg hkg => ?_)
      by_cases h : kg.2.length ≤ 1
      · rw [groupRemovedCount, if_pos h]
        have h1 : 1 ≤ kg.2.length :=
          List.length_pos.mpr (groupMovies_ne_nil ms kg hkg)
        omega
      · rw [groupRemovedCount, if_neg h]
        exact filter_ne_mid_length _ _ (group_ids_nodup ms hnd kg hkg)
          (chooseSurvivor_mem _ (groupMovies_ne_nil ms kg hkg))
    rw [hcong]
    have hmm : (groupMovies ms).map (fun kg => kg.2.length - 1)
        = ((groupMovies ms).map (fun kg => kg.2.length)).map
            (fun x => x - 1) := by
      rw [List.map_map]
      rfl
    rw [hmm, sum_sub_one _ hone, groupMovies_sizes]
    simp
  · show ((groupMovies ms).map (fun kg => groupKeptCount kg.2)).sum
      = (groupMovies ms).length
    have hcong : (groupMovies ms).map (fun kg => groupKeptCount kg.2)
        = (groupMovies ms).map (fun _ => (1 : Nat)) := by
      refine List.map_congr_left (fun kg hkg => ?_)
      have h1 : 1 ≤ kg.2.length :=
        List.length_pos.mpr (groupMovies_ne_nil ms kg hkg)
      by_cases h : kg.2.length ≤ 1
      · rw [groupKeptCount, if_pos h]
        omega
      · rw [groupKeptCount, if_neg h]
    rw [hcong, sum_map_one]
  · have hkeys : (dedupeMovies ms).catalog.map dedupeKey
        = (groupMovies ms).map Prod.fst :=
      flatten_surviving_keys (groupMovies ms) (groupMovies_ne_nil ms)
        (groupMovies_key ms)
    have hcnd : ((dedupeMovies ms).catalog.map dedupeKey).Nodup := by
      rw [hkeys]
      exact groupMovies_fst_nodup ms
    exact dedupe_removed_of_nodup_keys _ hcnd

/-- C8 witness: the dedupe theorem applied to a concrete catalog of three
records forming two title+year groups. -/
theorem C8_witness :
    (dedupeMovies
      [⟨"a", "Matrix, The", some 1999, none, none, none, none⟩,
       ⟨"b", " matrix,  the ", some 1999, none, some "p1", some "img", none⟩,
       ⟨"c", "Heat", some 1995, none, none, none, none⟩]).removed
      = ([⟨"a", "Matrix, The", some 1999, none, none, none, none⟩,
          ⟨"b", " matrix,  the ", some 1999, none, some "p1", some "img", none⟩,
          ⟨"c", "Heat", some 1995, none, none, none, none⟩] :
            List MovieRec).length
        - (dedupeMovies
            [⟨"a", "Matrix, The", some 1999, none, none, none, none⟩,
             ⟨"b", " matrix,  the ", some 1999, none, some "p1", some "img", none⟩,
             ⟨"c", "Heat", some 1995, none, none, none, none⟩]).totalGroups ∧
    (dedupeMovies
      [⟨"a", "Matrix, The", some 1999, none, none, none, none⟩,
       ⟨"b", " matrix,  the ", some 1999, none, some "p1", some "img", none⟩,
       ⟨"c", "Heat", some 1995, none, none, none, none⟩]).kept
      = (dedupeMovies
          [⟨"a", "Matrix, The", some 1999, none, none, none, none⟩,
           ⟨"b", " matrix,  the ", some 1999, none, some "p1", some "img", none⟩,
           ⟨"c", "Heat", some 1995, none, none, none, none⟩]).totalGroups ∧
    (dedupeMovies (dedupeMovies
      [⟨"a", "Matrix, The", some 1999, none, none, none, none⟩,
       ⟨"b", " matrix,  the ", some 1999, none, some "p1", some "img", none⟩,
       ⟨"c", "Heat", some 1995, none, none, none, none⟩]).catalog).removed = 0 :=
  C8_dedupe_counts_and_idempotent
    [⟨"a", "Matrix, The", some 1999, none, none, none, none⟩,
     ⟨"b", " matrix,  the ", some 1999, none, some "p1", some "img", none⟩,
     ⟨"c", "Heat", some 1995, none, none, none, none⟩] (by decide)
